import Mathlib

/-! # describe-action: the Markdown table renderer

A shallow embedding of `cmd/describe-action/main.go`.

* Go `string` is Lean `String`; Go compares strings byte by byte, which on
  UTF-8 text is the order of the code points, the order of `String`.
* A Go `map[string]*T` is a list of key/value pairs with pairwise distinct keys;
  a nil pointer is `none`.  A `range` over a map visits the entries in an order
  chosen by the runtime: every `range` statement takes its own `Range`.
* A nil-pointer dereference (a run-time panic) is the result `none`.
* `tablewriter.Table` is a third-party type: a table is represented by the list
  of method calls it has received, and the stream it writes to by the list of
  chunks written, where the text of a `Render` is named by the calls the table
  had received when it rendered.
* `survey.AskOne` is a third-party call: the answer is given by a parameter.
-/

namespace DescribeAction

/-! ## Data model -/

/-- Go `valueTypeString`. -/
def valueTypeString : String := "string"

/-- Go `valueTypeNumber`. -/
def valueTypeNumber : String := "number"

/-- Go `valueTypeBool`. -/
def valueTypeBool : String := "bool"

/-- Go `valueTypes`, the options of every type prompt. -/
def valueTypes : List String := [valueTypeString, valueTypeNumber, valueTypeBool]

/-- Go `maxColumnWidth`. -/
def maxColumnWidth : Nat := 256

/-- Go `Input`. -/
structure Input where
  Description : String
  Type_ : String
  Required : Bool
  Default : String
  deriving DecidableEq, Repr

/-- Go `Output`. -/
structure Output where
  Description : String
  Type_ : String
  deriving DecidableEq, Repr

/-- Go `Inputs`, `map[string]*Input`: one enumeration of the entries. -/
abbrev Inputs := List (String × Option Input)

/-- Go `Outputs`, `map[string]*Output`: one enumeration of the entries. -/
abbrev Outputs := List (String × Option Output)

/-- Go `Manifest`. -/
structure Manifest where
  Inputs : Inputs
  Outputs : Outputs
  deriving DecidableEq

/-- The order in which one `range` statement visits the entries of a map. -/
abbrev Range (α : Type) := List (String × α) → List (String × α)

/-- The keys of a map are pairwise distinct. -/
def UniqueKeys {α : Type} (m : List (String × α)) : Prop := (m.map Prod.fst).Nodup

/-- No value of the map is a nil pointer. -/
def NonNil {α : Type} (m : List (String × Option α)) : Prop := ∀ p ∈ m, p.2 ≠ none

instance {α : Type} (m : List (String × α)) : Decidable (UniqueKeys m) := by
  unfold UniqueKeys; infer_instance

instance {α : Type} [DecidableEq α] (m : List (String × Option α)) : Decidable (NonNil m) := by
  unfold NonNil; infer_instance

/-! ## The table and its output stream -/

/-- The methods of `tablewriter.Table` the program calls. -/
inductive TableCall where
  | SetBorders (left top right bottom : Bool)
  | SetCenterSeparator (sep : String)
  | SetColWidth (width : Nat)
  | SetHeader (keys : List String)
  | AppendBulk (rows : List (List String))
  | Render
  deriving DecidableEq, Repr

/-- One write to the output stream: the text a `Render` produces for a table
that had received `calls` before it, or the line break of `fmt.Println()`. -/
inductive Written where
  | table (calls : List TableCall)
  | newline
  deriving DecidableEq, Repr

/-- Go `markdownTableWriter`: `tw` is the table (the calls it has received, oldest
first) and `out` is the stream the table was created on. -/
structure markdownTableWriter where
  tw : List TableCall
  out : List Written
  deriving DecidableEq, Repr

/-- One call on the table: `Render` also writes the table to the stream. -/
def markdownTableWriter.call (w : markdownTableWriter) (c : TableCall) : markdownTableWriter :=
  match c with
  | .Render => { tw := w.tw ++ [c], out := w.out ++ [Written.table w.tw] }
  | _ => { w with tw := w.tw ++ [c] }

/-- Go `newMarkdownTableWriter`, on a stream that already holds `out`. -/
def newMarkdownTableWriter (out : List Written) : markdownTableWriter :=
  let tw : markdownTableWriter := { tw := [], out := out }
  let tw := tw.call (.SetBorders true false true false)
  let tw := tw.call (.SetCenterSeparator "|")
  let tw := tw.call (.SetColWidth maxColumnWidth)
  tw

/-! ## Cell formatting -/

/-- Go `backtickString`: `fmt.Sprintf` of the string between two backticks. -/
def backtickString (s : String) : String := "`" ++ s ++ "`"

/-- Go `backtickBool`: `%t` prints `true` or `false`. -/
def backtickBool (b : Bool) : String := "`" ++ (if b then "true" else "false") ++ "`"

/-! ## sort.Slice -/

/-- The first cell of a row, `data[i][0]`. Every row built below has one. -/
def cell0 (row : List String) : String := row.headD ""

/-- The comparison both tables hand to `sort.Slice`: `data[i][0] < data[j][0]`. -/
def less (a b : List String) : Prop := cell0 a < cell0 b

instance : DecidableRel less := fun a b => by unfold less; infer_instance

/-- Go `sort.Slice(data, less)` as an insertion sort: a row is placed before the
first row that is not less than it.  The result is a permutation of `data` in
which no row is less than an earlier one; when the first cells are pairwise
distinct that determines the result, whatever algorithm sorts. -/
def sortSlice (data : List (List String)) : List (List String) :=
  data.insertionSort (fun a b => ¬ less b a)

instance : IsTotal (List String) (fun a b => ¬ less b a) :=
  ⟨fun a b => by
    unfold less
    rcases lt_or_le (cell0 b) (cell0 a) with h | h
    · exact Or.inr (not_lt.mpr h.le)
    · exact Or.inl (not_lt.mpr h)⟩

instance : IsTrans (List String) (fun a b => ¬ less b a) :=
  ⟨fun a b c hab hbc => by
    unfold less at *
    exact not_lt.mpr (le_trans (not_lt.mp hab) (not_lt.mp hbc))⟩

instance : IsAntisymm (List String) less :=
  ⟨fun _ _ hab hba => absurd hba (lt_asymm hab)⟩

/-! ## writeTableInputs -/

/-- The first loop of `writeTableInputs`: is there an entry whose type is empty?
The loop stops at the first one; dereferencing a nil entry panics. -/
def inputsNoTypes : Inputs → Option Bool
  | [] => some false
  | (_, none) :: _ => none
  | (_, some input) :: rest => if input.Type_ = "" then some true else inputsNoTypes rest

/-- The body of the second loop of `writeTableInputs`: the row of one entry. -/
def inputRow (noTypes : Bool) (name : String) (input : Input) : List String :=
  let inputDefault := if input.Default = "" then "N/A" else input.Default
  if noTypes then
    [backtickString name, input.Description, backtickBool input.Required,
      backtickString inputDefault]
  else
    [backtickString name, input.Description, backtickString input.Type_,
      backtickBool input.Required, backtickString inputDefault]

/-- The second loop of `writeTableInputs`: one row per entry, in visiting order. -/
def inputsData (noTypes : Bool) : Inputs → Option (List (List String))
  | [] => some []
  | (_, none) :: _ => none
  | (name, some input) :: rest =>
    match inputsData noTypes rest with
    | none => none
    | some data => some (inputRow noTypes name input :: data)

/-- The header `writeTableInputs` sets. -/
def inputsHeader (noTypes : Bool) : List String :=
  if noTypes then ["Name", "Description", "Required", "Default"]
  else ["Name", "Description", "Type", "Required", "Default"]

/-- Go `writeTableInputs`; `r₁` and `r₂` are the visiting orders of its two loops. -/
def writeTableInputs (r₁ r₂ : Range (Option Input)) (w : markdownTableWriter)
    (inputs : Inputs) : Option markdownTableWriter :=
  match inputsNoTypes (r₁ inputs) with
  | none => none
  | some noTypes =>
    let w := w.call (.SetHeader (inputsHeader noTypes))
    match inputsData noTypes (r₂ inputs) with
    | none => none
    | some data =>
      let data := sortSlice data
      let w := w.call (.AppendBulk data)
      some (w.call .Render)

/-! ## writeTableOutputs -/

/-- The first loop of `writeTableOutputs`. -/
def outputsNoTypes : Outputs → Option Bool
  | [] => some false
  | (_, none) :: _ => none
  | (_, some output) :: rest => if output.Type_ = "" then some true else outputsNoTypes rest

/-- The body of the second loop of `writeTableOutputs`: the row of one entry. -/
def outputRow (noTypes : Bool) (name : String) (output : Output) : List String :=
  if noTypes then [backtickString name, output.Description]
  else [backtickString name, output.Description, backtickString output.Type_]

/-- The second loop of `writeTableOutputs`. -/
def outputsData (noTypes : Bool) : Outputs → Option (List (List String))
  | [] => some []
  | (_, none) :: _ => none
  | (name, some output) :: rest =>
    match outputsData noTypes rest with
    | none => none
    | some data => some (outputRow noTypes name output :: data)

/-- The header `writeTableOutputs` sets. -/
def outputsHeader (noTypes : Bool) : List String :=
  if noTypes then ["Name", "Description"] else ["Name", "Description", "Type"]

/-- Go `writeTableOutputs`; `r₁` and `r₂` are the visiting orders of its two loops. -/
def writeTableOutputs (r₁ r₂ : Range (Option Output)) (w : markdownTableWriter)
    (outputs : Outputs) : Option markdownTableWriter :=
  match outputsNoTypes (r₁ outputs) with
  | none => none
  | some noTypes =>
    let w := w.call (.SetHeader (outputsHeader noTypes))
    match outputsData noTypes (r₂ outputs) with
    | none => none
    | some data =>
      let data := sortSlice data
      let w := w.call (.AppendBulk data)
      some (w.call .Render)

/-- The writer after one table: header set, rows appended, table rendered. -/
def rendered (w : markdownTableWriter) (header : List String) (rows : List (List String)) :
    markdownTableWriter :=
  ((w.call (.SetHeader header)).call (.AppendBulk rows)).call .Render

/-! ## main -/

/-- The flags `-input`, `-output` and `-type`. -/
structure Flags where
  onlyInput : Bool
  onlyOutput : Bool
  hasTypes : Bool
  deriving DecidableEq, Repr

/-- One `survey.Select` prompt handed to `survey.AskOne`. -/
structure Prompt where
  Message : String
  Options : List String
  deriving DecidableEq, Repr

/-- The user at the terminal: the option selected for a prompt, or `none` when the
prompt is cancelled; `main` ignores the error and the target keeps its value. -/
abbrev Ask := Prompt → Option String

/-- Go `survey.AskOne(prompt, &target)`: the answer is written to the target; a
cancelled prompt returns an error, which `main` drops, and leaves the target. -/
def askOne (ask : Ask) (prompt : Prompt) (target : String) : String :=
  match ask prompt with
  | some t => t
  | none => target

/-- The prompt of the first loop of `main` for the input `name`. -/
def inputPrompt (name : String) : Prompt :=
  { Message := "Type of \"inputs." ++ name ++ "\":", Options := valueTypes }

/-- The prompt of the second loop of `main` for the output `name`. -/
def outputPrompt (name : String) : Prompt :=
  { Message := "Type of \"outputs." ++ name ++ "\":", Options := valueTypes }

/-- The first loop of `main`: one prompt per entry of `m.Inputs`, in visiting
order, with the type of the entry as its target.  Taking the address of the type
of a nil entry panics. -/
def promptInputs (ask : Ask) : Inputs → Option (Inputs × List Prompt)
  | [] => some ([], [])
  | (_, none) :: _ => none
  | (name, some input) :: rest =>
    let prompt := inputPrompt name
    let input := { input with Type_ := askOne ask prompt input.Type_ }
    match promptInputs ask rest with
    | none => none
    | some (rest, prompts) => some ((name, some input) :: rest, prompt :: prompts)

/-- The second loop of `main`: one prompt per entry of `m.Outputs`. -/
def promptOutputs (ask : Ask) : Outputs → Option (Outputs × List Prompt)
  | [] => some ([], [])
  | (_, none) :: _ => none
  | (name, some output) :: rest =>
    let prompt := outputPrompt name
    let output := { output with Type_ := askOne ask prompt output.Type_ }
    match promptOutputs ask rest with
    | none => none
    | some (rest, prompts) => some ((name, some output) :: rest, prompt :: prompts)

/-- The visiting orders of the six `range` statements a run of `main` can reach. -/
structure Schedule where
  promptInputs : Range (Option Input)
  promptOutputs : Range (Option Output)
  inputsNoTypes : Range (Option Input)
  inputsData : Range (Option Input)
  outputsNoTypes : Range (Option Output)
  outputsData : Range (Option Output)

/-- Every visiting order of the schedule is an enumeration of the map it is given. -/
def Schedule.Valid (s : Schedule) : Prop :=
  (∀ m, (s.promptInputs m).Perm m) ∧ (∀ m, (s.promptOutputs m).Perm m) ∧
  (∀ m, (s.inputsNoTypes m).Perm m) ∧ (∀ m, (s.inputsData m).Perm m) ∧
  (∀ m, (s.outputsNoTypes m).Perm m) ∧ (∀ m, (s.outputsData m).Perm m)

/-- The schedule that visits every map in the order it is written down. -/
def Schedule.inOrder : Schedule := ⟨id, id, id, id, id, id⟩

/-- What a run of `main` that does not panic leaves behind: the manifest after
type collection, the prompts asked (kept apart from the tables), and the tables
and line breaks written to standard output. -/
structure Run where
  manifest : Manifest
  prompts : List Prompt
  stdout : List Written
  deriving DecidableEq

/-- Go `main` from the loaded manifest on (lines 72 to 106); reading and parsing
the file, which end the process on failure, come before. -/
def main (flags : Flags) (s : Schedule) (ask : Ask) (m : Manifest) : Option Run :=
  let inputs? :=
    if flags.hasTypes && !flags.onlyOutput then promptInputs ask (s.promptInputs m.Inputs)
    else some (m.Inputs, [])
  match inputs? with
  | none => none
  | some (inputs, prompts₁) =>
    let outputs? :=
      if flags.hasTypes && !flags.onlyInput then promptOutputs ask (s.promptOutputs m.Outputs)
      else some (m.Outputs, [])
    match outputs? with
    | none => none
    | some (outputs, prompts₂) =>
      let m : Manifest := { Inputs := inputs, Outputs := outputs }
      let prompts := prompts₁ ++ prompts₂
      let mtw := newMarkdownTableWriter []
      if flags.onlyInput then
        match writeTableInputs s.inputsNoTypes s.inputsData mtw m.Inputs with
        | none => none
        | some mtw => some { manifest := m, prompts := prompts, stdout := mtw.out }
      else if flags.onlyOutput then
        match writeTableOutputs s.outputsNoTypes s.outputsData mtw m.Outputs with
        | none => none
        | some mtw => some { manifest := m, prompts := prompts, stdout := mtw.out }
      else
        match writeTableInputs s.inputsNoTypes s.inputsData mtw m.Inputs with
        | none => none
        | some mtw =>
          let mtw := { mtw with out := mtw.out ++ [Written.newline] }
          match writeTableOutputs s.outputsNoTypes s.outputsData mtw m.Outputs with
          | none => none
          | some mtw => some { manifest := m, prompts := prompts, stdout := mtw.out }

/-! ## The two loops, once for both tables -/

/-- The shape of the first loop of both tables, over the type field `ty`. -/
def noTypesLoop {α : Type} (ty : α → String) : List (String × Option α) → Option Bool
  | [] => some false
  | (_, none) :: _ => none
  | (_, some v) :: rest => if ty v = "" then some true else noTypesLoop ty rest

/-- The shape of the second loop of both tables, over the row of an entry. -/
def dataLoop {α : Type} (row : String → α → List String) :
    List (String × Option α) → Option (List (List String))
  | [] => some []
  | (_, none) :: _ => none
  | (name, some v) :: rest =>
    match dataLoop row rest with
    | none => none
    | some data => some (row name v :: data)

/-- Some entry of the map has an empty type. -/
def anyNoType {α : Type} (ty : α → String) (m : List (String × Option α)) : Bool :=
  m.any fun p => match p.2 with
    | some v => decide (ty v = "")
    | none => false

/-- The rows of the non-nil entries, in the order of the list. -/
def rowsOf {α : Type} (row : String → α → List String) (m : List (String × Option α)) :
    List (List String) :=
  m.filterMap fun p => p.2.map (row p.1)

/-- The cell of `row` in the column of `header` labelled `label`. -/
def column (header : List String) (label : String) (row : List String) : Option String :=
  if label ∈ header then row[header.indexOf label]? else none

/-- The inputs of the test case "without types" of `main_test.go`. -/
def testInputs : Inputs :=
  [("github_token", some (Input.mk "A GitHub token." "" true "")),
   ("repo", some (Input.mk "The owner and repository name. e.g.) Codertocat/Hello-World." ""
      false "$\x7b\x7b github.repository \x7d\x7d"))]

/-- The inputs of the test case "with types" of `main_test.go`. -/
def testInputsTyped : Inputs :=
  [("github_token", some (Input.mk "A GitHub token." valueTypeString true "")),
   ("repo", some (Input.mk "The owner and repository name. e.g.) Codertocat/Hello-World."
      valueTypeString false "$\x7b\x7b github.repository \x7d\x7d"))]

/-- The outputs of the test case "without types" of `main_test.go`. -/
def testOutputs : Outputs :=
  [("result", some (Output.mk "The result of the action." "")),
   ("note", some (Output.mk "The note about the action." ""))]

/-- The outputs of the test case "with types" of `main_test.go`. -/
def testOutputsTyped : Outputs :=
  [("result", some (Output.mk "The result of the action." valueTypeString)),
   ("note", some (Output.mk "The note about the action." valueTypeString))]

/-- Two inputs, the name of one a prefix of the name of the other. -/
def prefixInputs : Inputs :=
  [("a", some (Input.mk "first" "" false "")), ("a_b", some (Input.mk "second" "" false ""))]

/-- Two outputs, the name of one a prefix of the name of the other. -/
def prefixOutputs : Outputs :=
  [("a", some (Output.mk "first" "")), ("a_b", some (Output.mk "second" ""))]

/-- Two outputs, one with a type and one without. -/
def mixedOutputs : Outputs :=
  [("result", some (Output.mk "The result of the action." valueTypeString)),
   ("note", some (Output.mk "The note about the action." ""))]

/-- The inputs after a prompt for every entry. -/
def collectInputs (ask : Ask) (l : Inputs) : Inputs :=
  l.map fun p =>
    (p.1, p.2.map fun input => { input with Type_ := askOne ask (inputPrompt p.1) input.Type_ })

/-- The outputs after a prompt for every entry. -/
def collectOutputs (ask : Ask) (l : Outputs) : Outputs :=
  l.map fun p =>
    (p.1, p.2.map fun output =>
      { output with Type_ := askOne ask (outputPrompt p.1) output.Type_ })

/-- The manifest after the two prompt loops of `main`, as the flags gate them. -/
def collected (flags : Flags) (s : Schedule) (ask : Ask) (m : Manifest) : Manifest :=
  { Inputs :=
      if flags.hasTypes && !flags.onlyOutput then collectInputs ask (s.promptInputs m.Inputs)
      else m.Inputs
    Outputs :=
      if flags.hasTypes && !flags.onlyInput then collectOutputs ask (s.promptOutputs m.Outputs)
      else m.Outputs }

/-- The prompts of the two prompt loops of `main`, as the flags gate them. -/
def asked (flags : Flags) (s : Schedule) (m : Manifest) : List Prompt :=
  (if flags.hasTypes && !flags.onlyOutput then
      (s.promptInputs m.Inputs).map fun p => inputPrompt p.1
    else []) ++
  (if flags.hasTypes && !flags.onlyInput then
      (s.promptOutputs m.Outputs).map fun p => outputPrompt p.1
    else [])

/-- One input and one output. -/
def smallManifest : Manifest :=
  { Inputs := [("token", some (Input.mk "A token." "" true ""))]
    Outputs := [("result", some (Output.mk "The result." ""))] }

/-- One input that has a type when loaded. -/
def typedManifest : Manifest :=
  { Inputs := [("token", some (Input.mk "A token." "string" true ""))]
    Outputs := [] }

/-- The example inputs of the specification, without types; the description of
`repo` is left open there. -/
def exampleInputs (description : String) : Inputs :=
  [("github_token", some (Input.mk "A GitHub token." "" true "")),
   ("repo", some (Input.mk description "" false "$\x7b\x7b github.repository \x7d\x7d"))]

/-- The example outputs of the specification. -/
def exampleOutputs : Outputs :=
  [("result", some (Output.mk "The result of the action." "")),
   ("note", some (Output.mk "The note about the action." ""))]

/-- One input, and an output that is a nil pointer. -/
def nilOutputManifest : Manifest :=
  { Inputs := [("token", some (Input.mk "A token." "" true ""))]
    Outputs := [("result", none)] }

/-- One input whose description is empty. -/
def bareInputs : Inputs := [("token", some (Input.mk "" "" false ""))]

/-! ## The loops -/

theorem inputsNoTypes_eq_loop (l : Inputs) : inputsNoTypes l = noTypesLoop Input.Type_ l := by
  induction l with
  | nil => rfl
  | cons p rest ih =>
    obtain ⟨name, v⟩ := p
    cases v with
    | none => rfl
    | some input => simp only [inputsNoTypes, noTypesLoop, ih]

theorem outputsNoTypes_eq_loop (l : Outputs) : outputsNoTypes l = noTypesLoop Output.Type_ l := by
  induction l with
  | nil => rfl
  | cons p rest ih =>
    obtain ⟨name, v⟩ := p
    cases v with
    | none => rfl
    | some output => simp only [outputsNoTypes, noTypesLoop, ih]

theorem inputsData_eq_loop (noTypes : Bool) (l : Inputs) :
    inputsData noTypes l = dataLoop (inputRow noTypes) l := by
  induction l with
  | nil => rfl
  | cons p rest ih =>
    obtain ⟨name, v⟩ := p
    cases v with
    | none => rfl
    | some input => simp only [inputsData, dataLoop, ih]

theorem outputsData_eq_loop (noTypes : Bool) (l : Outputs) :
    outputsData noTypes l = dataLoop (outputRow noTypes) l := by
  induction l with
  | nil => rfl
  | cons p rest ih =>
    obtain ⟨name, v⟩ := p
    cases v with
    | none => rfl
    | some output => simp only [outputsData, dataLoop, ih]

theorem nonNil_cons {α : Type} (p : String × Option α) (l : List (String × Option α)) :
    NonNil (p :: l) ↔ p.2 ≠ none ∧ NonNil l := by
  simp [NonNil]

theorem nonNil_perm {α : Type} {l₁ l₂ : List (String × Option α)} (h : l₁.Perm l₂) :
    NonNil l₁ ↔ NonNil l₂ := by
  unfold NonNil
  constructor
  · intro hn p hp; exact hn p (h.mem_iff.mpr hp)
  · intro hn p hp; exact hn p (h.mem_iff.mp hp)

theorem anyNoType_iff {α : Type} (ty : α → String) (l : List (String × Option α)) :
    anyNoType ty l = true ↔ ∃ name v, (name, some v) ∈ l ∧ ty v = "" := by
  unfold anyNoType
  rw [List.any_eq_true]
  constructor
  · rintro ⟨⟨name, v⟩, hmem, hp⟩
    cases v with
    | none => simp at hp
    | some v => exact ⟨name, v, hmem, by simpa using hp⟩
  · rintro ⟨name, v, hmem, hty⟩
    exact ⟨(name, some v), hmem, by simpa using hty⟩

theorem anyNoType_perm {α : Type} (ty : α → String) {l₁ l₂ : List (String × Option α)}
    (h : l₁.Perm l₂) : anyNoType ty l₁ = anyNoType ty l₂ := by
  rw [Bool.eq_iff_iff, anyNoType_iff, anyNoType_iff]
  constructor
  · rintro ⟨name, v, hmem, hty⟩; exact ⟨name, v, h.mem_iff.mp hmem, hty⟩
  · rintro ⟨name, v, hmem, hty⟩; exact ⟨name, v, h.mem_iff.mpr hmem, hty⟩

theorem noTypesLoop_of_nonNil {α : Type} (ty : α → String) (l : List (String × Option α))
    (h : NonNil l) : noTypesLoop ty l = some (anyNoType ty l) := by
  induction l with
  | nil => rfl
  | cons p rest ih =>
    obtain ⟨name, v⟩ := p
    rw [nonNil_cons] at h
    cases v with
    | none => exact absurd rfl h.1
    | some v =>
      by_cases hty : ty v = ""
      · simp [noTypesLoop, anyNoType, hty]
      · have ih := ih h.2
        simp only [anyNoType] at ih
        simp [noTypesLoop, anyNoType, hty, ih]

theorem dataLoop_of_nonNil {α : Type} (row : String → α → List String)
    (l : List (String × Option α)) (h : NonNil l) : dataLoop row l = some (rowsOf row l) := by
  induction l with
  | nil => rfl
  | cons p rest ih =>
    obtain ⟨name, v⟩ := p
    rw [nonNil_cons] at h
    cases v with
    | none => exact absurd rfl h.1
    | some v => simp [dataLoop, ih h.2, rowsOf]

theorem dataLoop_of_nil {α : Type} (row : String → α → List String)
    (l : List (String × Option α)) (h : ¬ NonNil l) : dataLoop row l = none := by
  induction l with
  | nil => exact absurd (by simp [NonNil]) h
  | cons p rest ih =>
    obtain ⟨name, v⟩ := p
    cases v with
    | none => rfl
    | some v =>
      have hrest : ¬ NonNil rest := fun hr => h ((nonNil_cons _ _).mpr ⟨by simp, hr⟩)
      simp [dataLoop, ih hrest]

theorem mem_rowsOf {α : Type} (row : String → α → List String) (l : List (String × Option α))
    (x : List String) : x ∈ rowsOf row l ↔ ∃ name v, (name, some v) ∈ l ∧ row name v = x := by
  unfold rowsOf
  rw [List.mem_filterMap]
  constructor
  · rintro ⟨⟨name, v⟩, hmem, hp⟩
    cases v with
    | none => simp at hp
    | some v => exact ⟨name, v, hmem, by simpa using hp⟩
  · rintro ⟨name, v, hmem, hrow⟩
    exact ⟨(name, some v), hmem, by simpa using hrow⟩

theorem rowsOf_perm {α : Type} (row : String → α → List String)
    {l₁ l₂ : List (String × Option α)} (h : l₁.Perm l₂) :
    (rowsOf row l₁).Perm (rowsOf row l₂) :=
  h.filterMap _

/-! ## Cells -/

theorem backtickString_toList (s : String) :
    (backtickString s).toList = "`".toList ++ (s.toList ++ "`".toList) := by
  simp [backtickString, String.toList]

theorem backtickString_injective {s t : String} (h : backtickString s = backtickString t) :
    s = t := by
  have h' := congrArg String.toList h
  rw [backtickString_toList, backtickString_toList] at h'
  have h'' : s.toList = t.toList := by simpa using h'
  exact String.toList_inj.mp h''

theorem cell0_inputRow (noTypes : Bool) (name : String) (input : Input) :
    cell0 (inputRow noTypes name input) = backtickString name := by
  cases noTypes <;> rfl

theorem cell0_outputRow (noTypes : Bool) (name : String) (output : Output) :
    cell0 (outputRow noTypes name output) = backtickString name := by
  cases noTypes <;> rfl

theorem nodup_cell0_rowsOf {α : Type} (row : String → α → List String)
    (hrow : ∀ name v, cell0 (row name v) = backtickString name)
    (l : List (String × Option α)) (h : UniqueKeys l) : ((rowsOf row l).map cell0).Nodup := by
  induction l with
  | nil => simp [rowsOf]
  | cons p rest ih =>
    obtain ⟨name, v⟩ := p
    have hk : name ∉ rest.map Prod.fst ∧ UniqueKeys rest := by
      simpa [UniqueKeys] using h
    cases v with
    | none => simpa [rowsOf] using ih hk.2
    | some v =>
      have hcons : rowsOf row ((name, some v) :: rest) = row name v :: rowsOf row rest := by
        simp [rowsOf]
      rw [hcons, List.map_cons, List.nodup_cons]
      refine ⟨?_, ih hk.2⟩
      intro hmem
      obtain ⟨x, hx, hx0⟩ := List.mem_map.mp hmem
      obtain ⟨name', v', hmem', rfl⟩ := (mem_rowsOf row rest x).mp hx
      rw [hrow, hrow] at hx0
      have hname : name' = name := backtickString_injective hx0
      exact hk.1 (List.mem_map.mpr ⟨(name', some v'), hmem', hname⟩)

/-! ## sort.Slice -/

theorem sortSlice_perm (data : List (List String)) : (sortSlice data).Perm data :=
  List.perm_insertionSort _ data

theorem sortSlice_sorted (data : List (List String)) :
    (sortSlice data).Pairwise (fun a b => ¬ less b a) :=
  List.sorted_insertionSort _ data

theorem mem_sortSlice (data : List (List String)) (x : List String) :
    x ∈ sortSlice data ↔ x ∈ data :=
  (sortSlice_perm data).mem_iff

theorem length_sortSlice (data : List (List String)) : (sortSlice data).length = data.length :=
  (sortSlice_perm data).length_eq

/-- With pairwise distinct first cells the result ascends strictly. -/
theorem sortSlice_strict (data : List (List String)) (h : (data.map cell0).Nodup) :
    (sortSlice data).Pairwise less := by
  have hnd : ((sortSlice data).map cell0).Nodup :=
    ((sortSlice_perm data).map cell0).nodup_iff.mpr h
  have hne : (sortSlice data).Pairwise (fun a b => cell0 a ≠ cell0 b) := by
    simpa [List.Nodup, List.pairwise_map] using hnd
  refine ((sortSlice_sorted data).and hne).imp ?_
  rintro a b ⟨hle, hne⟩
  unfold less at *
  exact lt_of_le_of_ne (not_lt.mp hle) hne

/-- With pairwise distinct first cells, whatever permutation of the rows a sort
returns in which no row is less than an earlier one is the result of `sortSlice`. -/
theorem sortSlice_unique (data out : List (List String)) (h : (data.map cell0).Nodup)
    (hperm : out.Perm data) (hsorted : out.Pairwise (fun a b => ¬ less b a)) :
    out = sortSlice data := by
  have hnd : (out.map cell0).Nodup := (hperm.map cell0).nodup_iff.mpr h
  have hne : out.Pairwise (fun a b => cell0 a ≠ cell0 b) := by
    simpa [List.Nodup, List.pairwise_map] using hnd
  have hstrict : out.Pairwise less := by
    refine (hsorted.and hne).imp ?_
    rintro a b ⟨hle, hne⟩
    unfold less at *
    exact lt_of_le_of_ne (not_lt.mp hle) hne
  exact List.eq_of_perm_of_sorted (hperm.trans (sortSlice_perm data).symm) hstrict
    (sortSlice_strict data h)

/-- Two enumerations of the same rows sort to the same list. -/
theorem sortSlice_congr (d₁ d₂ : List (List String)) (h : (d₂.map cell0).Nodup)
    (hperm : d₁.Perm d₂) : sortSlice d₁ = sortSlice d₂ :=
  sortSlice_unique d₂ (sortSlice d₁) h ((sortSlice_perm d₁).trans hperm) (sortSlice_sorted d₁)

/-! ## The two tables in closed form -/

theorem writeTableInputs_eq (r₁ r₂ : Range (Option Input)) (w : markdownTableWriter)
    (inputs : Inputs) (hnil : NonNil inputs) (h₁ : (r₁ inputs).Perm inputs)
    (h₂ : (r₂ inputs).Perm inputs) :
    writeTableInputs r₁ r₂ w inputs =
      some (rendered w (inputsHeader (anyNoType Input.Type_ inputs))
        (sortSlice (rowsOf (inputRow (anyNoType Input.Type_ inputs)) (r₂ inputs)))) := by
  have e₁ : inputsNoTypes (r₁ inputs) = some (anyNoType Input.Type_ inputs) := by
    rw [inputsNoTypes_eq_loop, noTypesLoop_of_nonNil _ _ ((nonNil_perm h₁).mpr hnil),
      anyNoType_perm _ h₁]
  have e₂ : ∀ b, inputsData b (r₂ inputs) = some (rowsOf (inputRow b) (r₂ inputs)) := fun b => by
    rw [inputsData_eq_loop, dataLoop_of_nonNil _ _ ((nonNil_perm h₂).mpr hnil)]
  simp only [writeTableInputs, e₁, e₂, rendered]

theorem writeTableOutputs_eq (r₁ r₂ : Range (Option Output)) (w : markdownTableWriter)
    (outputs : Outputs) (hnil : NonNil outputs) (h₁ : (r₁ outputs).Perm outputs)
    (h₂ : (r₂ outputs).Perm outputs) :
    writeTableOutputs r₁ r₂ w outputs =
      some (rendered w (outputsHeader (anyNoType Output.Type_ outputs))
        (sortSlice (rowsOf (outputRow (anyNoType Output.Type_ outputs)) (r₂ outputs)))) := by
  have e₁ : outputsNoTypes (r₁ outputs) = some (anyNoType Output.Type_ outputs) := by
    rw [outputsNoTypes_eq_loop, noTypesLoop_of_nonNil _ _ ((nonNil_perm h₁).mpr hnil),
      anyNoType_perm _ h₁]
  have e₂ : ∀ b, outputsData b (r₂ outputs) = some (rowsOf (outputRow b) (r₂ outputs)) :=
    fun b => by
      rw [outputsData_eq_loop, dataLoop_of_nonNil _ _ ((nonNil_perm h₂).mpr hnil)]
  simp only [writeTableOutputs, e₁, e₂, rendered]

/-- A nil entry makes `writeTableInputs` panic, in whatever order it is met. -/
theorem writeTableInputs_nil (r₁ r₂ : Range (Option Input)) (w : markdownTableWriter)
    (inputs : Inputs) (hnil : ¬ NonNil inputs) (h₂ : (r₂ inputs).Perm inputs) :
    writeTableInputs r₁ r₂ w inputs = none := by
  have e₂ : ∀ b, inputsData b (r₂ inputs) = none := fun b => by
    rw [inputsData_eq_loop, dataLoop_of_nil _ _ (fun h => hnil ((nonNil_perm h₂).mp h))]
  unfold writeTableInputs
  cases inputsNoTypes (r₁ inputs) with
  | none => rfl
  | some b => simp only [e₂]

/-- A nil entry makes `writeTableOutputs` panic, in whatever order it is met. -/
theorem writeTableOutputs_nil (r₁ r₂ : Range (Option Output)) (w : markdownTableWriter)
    (outputs : Outputs) (hnil : ¬ NonNil outputs) (h₂ : (r₂ outputs).Perm outputs) :
    writeTableOutputs r₁ r₂ w outputs = none := by
  have e₂ : ∀ b, outputsData b (r₂ outputs) = none := fun b => by
    rw [outputsData_eq_loop, dataLoop_of_nil _ _ (fun h => hnil ((nonNil_perm h₂).mp h))]
  unfold writeTableOutputs
  cases outputsNoTypes (r₁ outputs) with
  | none => rfl
  | some b => simp only [e₂]

/-- The rows handed to the table are the rows of the entries. -/
theorem mem_sorted_rowsOf {α : Type} (row : String → α → List String)
    (m l : List (String × Option α)) (h : l.Perm m) (x : List String) :
    x ∈ sortSlice (rowsOf row l) ↔ ∃ name v, (name, some v) ∈ m ∧ row name v = x := by
  rw [mem_sortSlice, mem_rowsOf]
  constructor
  · rintro ⟨name, v, hmem, hx⟩; exact ⟨name, v, h.mem_iff.mp hmem, hx⟩
  · rintro ⟨name, v, hmem, hx⟩; exact ⟨name, v, h.mem_iff.mpr hmem, hx⟩

theorem anyNoType_false_iff {α : Type} (ty : α → String) (l : List (String × Option α)) :
    anyNoType ty l = false ↔ ∀ name v, (name, some v) ∈ l → ty v ≠ "" := by
  rw [← Bool.not_eq_true, anyNoType_iff]
  constructor
  · intro h name v hmem hty; exact h ⟨name, v, hmem, hty⟩
  · rintro h ⟨name, v, hmem, hty⟩; exact h name v hmem hty

/-- The table of inputs: the header and the rows, entry by entry. -/
theorem writeTableInputs_rows (r₁ r₂ : Range (Option Input)) (w : markdownTableWriter)
    (inputs : Inputs) (hnil : NonNil inputs) (h₁ : (r₁ inputs).Perm inputs)
    (h₂ : (r₂ inputs).Perm inputs) :
    ∃ noTypes rows,
      (noTypes = true ↔ ∃ name input, (name, some input) ∈ inputs ∧ input.Type_ = "") ∧
      writeTableInputs r₁ r₂ w inputs = some (rendered w (inputsHeader noTypes) rows) ∧
      ∀ row, row ∈ rows ↔
        ∃ name input, (name, some input) ∈ inputs ∧ inputRow noTypes name input = row :=
  ⟨_, _, anyNoType_iff _ _, writeTableInputs_eq r₁ r₂ w inputs hnil h₁ h₂,
    mem_sorted_rowsOf _ inputs _ h₂⟩

/-- The table of outputs: the header and the rows, entry by entry. -/
theorem writeTableOutputs_rows (r₁ r₂ : Range (Option Output)) (w : markdownTableWriter)
    (outputs : Outputs) (hnil : NonNil outputs) (h₁ : (r₁ outputs).Perm outputs)
    (h₂ : (r₂ outputs).Perm outputs) :
    ∃ noTypes rows,
      (noTypes = true ↔ ∃ name output, (name, some output) ∈ outputs ∧ output.Type_ = "") ∧
      writeTableOutputs r₁ r₂ w outputs = some (rendered w (outputsHeader noTypes) rows) ∧
      ∀ row, row ∈ rows ↔
        ∃ name output, (name, some output) ∈ outputs ∧ outputRow noTypes name output = row :=
  ⟨_, _, anyNoType_iff _ _, writeTableOutputs_eq r₁ r₂ w outputs hnil h₁ h₂,
    mem_sorted_rowsOf _ outputs _ h₂⟩

/-! ## The claims -/

/-- C1: for every set of inputs without nil entries (the empty set too),
`writeTableInputs` sets the header Name, Description, Type, Required, Default when
every entry has a non-empty type, and then every row has 5 cells, the third one
being the Type cell of its entry (the type between backticks); it sets the header
Name, Description, Required, Default when some entry has an empty type, and then
every row has 4 cells: name, description, required and default, no Type cell. -/
theorem writeTableInputs_columns (r₁ r₂ : Range (Option Input)) (w : markdownTableWriter)
    (inputs : Inputs) (hnil : NonNil inputs) (h₁ : (r₁ inputs).Perm inputs)
    (h₂ : (r₂ inputs).Perm inputs) :
    ∃ header rows, writeTableInputs r₁ r₂ w inputs = some (rendered w header rows) ∧
      ((∀ name input, (name, some input) ∈ inputs → input.Type_ ≠ "") →
        header = ["Name", "Description", "Type", "Required", "Default"] ∧
        (∀ row ∈ rows, row.length = 5 ∧
          ∃ name input, (name, some input) ∈ inputs ∧
            row[0]? = some (backtickString name) ∧
            row[2]? = some (backtickString input.Type_)) ∧
        (∀ name input, (name, some input) ∈ inputs →
          ∃ row ∈ rows, row[0]? = some (backtickString name) ∧
            row[2]? = some (backtickString input.Type_))) ∧
      ((∃ name input, (name, some input) ∈ inputs ∧ input.Type_ = "") →
        header = ["Name", "Description", "Required", "Default"] ∧
        ∀ row ∈ rows, row.length = 4 ∧
          ∃ name input, (name, some input) ∈ inputs ∧
            row = [backtickString name, input.Description, backtickBool input.Required,
              backtickString (if input.Default = "" then "N/A" else input.Default)]) := by
  obtain ⟨noTypes, rows, hnt, he, hrows⟩ := writeTableInputs_rows r₁ r₂ w inputs hnil h₁ h₂
  refine ⟨_, rows, he, ?_, ?_⟩
  · intro hall
    have hf : noTypes = false := by
      cases noTypes with
      | false => rfl
      | true =>
        obtain ⟨name, input, hmem, hty⟩ := hnt.mp rfl
        exact absurd hty (hall name input hmem)
    subst hf
    refine ⟨rfl, ?_, ?_⟩
    · intro row hrow
      obtain ⟨name, input, hmem, rfl⟩ := (hrows row).mp hrow
      exact ⟨rfl, name, input, hmem, rfl, rfl⟩
    · intro name input hmem
      exact ⟨_, (hrows _).mpr ⟨name, input, hmem, rfl⟩, rfl, rfl⟩
  · intro hex
    have ht : noTypes = true := hnt.mpr hex
    subst ht
    refine ⟨rfl, ?_⟩
    intro row hrow
    obtain ⟨name, input, hmem, rfl⟩ := (hrows row).mp hrow
    exact ⟨rfl, name, input, hmem, rfl⟩

/-- C1, at the typed inputs of the test: the header has the Type column. -/
theorem writeTableInputs_columns_witness :
    NonNil testInputsTyped ∧
    ∃ header rows,
      writeTableInputs id List.reverse (newMarkdownTableWriter []) testInputsTyped =
        some (rendered (newMarkdownTableWriter []) header rows) ∧
      header = ["Name", "Description", "Type", "Required", "Default"] ∧
      ∀ row ∈ rows, row.length = 5 := by
  have hnil : NonNil testInputsTyped := by decide
  obtain ⟨header, rows, he, h5, _⟩ :=
    writeTableInputs_columns id List.reverse (newMarkdownTableWriter []) testInputsTyped hnil
      (List.Perm.refl _) (List.reverse_perm _)
  have hall : ∀ name input, (name, some input) ∈ testInputsTyped → input.Type_ ≠ "" := by
    intro name input hmem
    simp only [testInputsTyped, List.mem_cons, Prod.mk.injEq, Option.some.injEq,
      List.mem_nil_iff, or_false] at hmem
    rcases hmem with ⟨_, rfl⟩ | ⟨_, rfl⟩ <;> decide
  exact ⟨hnil, header, rows, he, (h5 hall).1, fun row hrow => ((h5 hall).2.1 row hrow).1⟩

/-- The order of two rows whose first cells are known. -/
theorem less_iff_toList (a b : List String) :
    less a b ↔ (cell0 a).toList < (cell0 b).toList :=
  String.lt_iff_toList_lt

/-- C2, at the inputs `a` and `a_b` and at the outputs `a` and `a_b`: the name `a`
is less than the name `a_b`, and yet, in whichever of the two orders the map is
visited, the row of `a_b` is handed to the table before the row of `a`, because
the rows are compared by their first cells, the names between backticks. -/
theorem writeTable_sorts_wrapped_names :
    "a" < "a_b" ∧
    writeTableInputs id id (newMarkdownTableWriter []) prefixInputs =
      some (rendered (newMarkdownTableWriter []) ["Name", "Description", "Required", "Default"]
        [["`a_b`", "second", "`false`", "`N/A`"], ["`a`", "first", "`false`", "`N/A`"]]) ∧
    writeTableInputs List.reverse List.reverse (newMarkdownTableWriter []) prefixInputs =
      some (rendered (newMarkdownTableWriter []) ["Name", "Description", "Required", "Default"]
        [["`a_b`", "second", "`false`", "`N/A`"], ["`a`", "first", "`false`", "`N/A`"]]) ∧
    writeTableOutputs id id (newMarkdownTableWriter []) prefixOutputs =
      some (rendered (newMarkdownTableWriter []) ["Name", "Description"]
        [["`a_b`", "second"], ["`a`", "first"]]) ∧
    writeTableOutputs List.reverse List.reverse (newMarkdownTableWriter []) prefixOutputs =
      some (rendered (newMarkdownTableWriter []) ["Name", "Description"]
        [["`a_b`", "second"], ["`a`", "first"]]) := by
  have hlt : ∀ x y : List String, less ("`a_b`" :: x) ("`a`" :: y) := fun x y => by
    rw [less_iff_toList]
    show "`a_b`".toList < "`a`".toList
    decide
  have hnlt : ∀ x y : List String, ¬ less ("`a`" :: x) ("`a_b`" :: y) := fun x y => by
    rw [less_iff_toList]
    show ¬ "`a`".toList < "`a_b`".toList
    decide
  refine ⟨by rw [String.lt_iff_toList_lt]; decide, ?_, ?_, ?_, ?_⟩
  · rw [writeTableInputs_eq _ _ _ _ (by decide) (List.Perm.refl _) (List.Perm.refl _)]
    have hd : rowsOf (inputRow (anyNoType Input.Type_ prefixInputs)) (id prefixInputs) =
        [["`a`", "first", "`false`", "`N/A`"], ["`a_b`", "second", "`false`", "`N/A`"]] := by
      decide
    have hh : inputsHeader (anyNoType Input.Type_ prefixInputs) =
        ["Name", "Description", "Required", "Default"] := by decide
    rw [hd, hh]
    simp [sortSlice, List.insertionSort, List.orderedInsert, hlt, hnlt]
  · rw [writeTableInputs_eq _ _ _ _ (by decide) (List.reverse_perm _) (List.reverse_perm _)]
    have hd : rowsOf (inputRow (anyNoType Input.Type_ prefixInputs))
        (List.reverse prefixInputs) =
        [["`a_b`", "second", "`false`", "`N/A`"], ["`a`", "first", "`false`", "`N/A`"]] := by
      decide
    have hh : inputsHeader (anyNoType Input.Type_ prefixInputs) =
        ["Name", "Description", "Required", "Default"] := by decide
    rw [hd, hh]
    simp [sortSlice, List.insertionSort, List.orderedInsert, hlt, hnlt]
  · rw [writeTableOutputs_eq _ _ _ _ (by decide) (List.Perm.refl _) (List.Perm.refl _)]
    have hd : rowsOf (outputRow (anyNoType Output.Type_ prefixOutputs)) (id prefixOutputs) =
        [["`a`", "first"], ["`a_b`", "second"]] := by decide
    have hh : outputsHeader (anyNoType Output.Type_ prefixOutputs) =
        ["Name", "Description"] := by decide
    rw [hd, hh]
    simp [sortSlice, List.insertionSort, List.orderedInsert, hlt, hnlt]
  · rw [writeTableOutputs_eq _ _ _ _ (by decide) (List.reverse_perm _) (List.reverse_perm _)]
    have hd : rowsOf (outputRow (anyNoType Output.Type_ prefixOutputs))
        (List.reverse prefixOutputs) =
        [["`a_b`", "second"], ["`a`", "first"]] := by decide
    have hh : outputsHeader (anyNoType Output.Type_ prefixOutputs) =
        ["Name", "Description"] := by decide
    rw [hd, hh]
    simp [sortSlice, List.insertionSort, List.orderedInsert, hlt, hnlt]

/-- C3: for every input entry the Default cell, the last cell of its row and the
cell under the header Default, is N/A between backticks when the default of the
entry is empty, and the default between backticks otherwise, with and without the
Type column. -/
theorem writeTableInputs_default_cell (r₁ r₂ : Range (Option Input)) (w : markdownTableWriter)
    (inputs : Inputs) (hnil : NonNil inputs) (h₁ : (r₁ inputs).Perm inputs)
    (h₂ : (r₂ inputs).Perm inputs) :
    ∃ header rows, writeTableInputs r₁ r₂ w inputs = some (rendered w header rows) ∧
      (∀ name input, (name, some input) ∈ inputs →
        ∃ row ∈ rows, cell0 row = backtickString name ∧
          row.getLast? =
            some (if input.Default = "" then "`N/A`" else "`" ++ input.Default ++ "`") ∧
          column header "Default" row = row.getLast?) ∧
      (∀ row ∈ rows, ∃ name input, (name, some input) ∈ inputs ∧
          cell0 row = backtickString name ∧
          row.getLast? =
            some (if input.Default = "" then "`N/A`" else "`" ++ input.Default ++ "`") ∧
          column header "Default" row = row.getLast?) := by
  obtain ⟨noTypes, rows, -, he, hrows⟩ := writeTableInputs_rows r₁ r₂ w inputs hnil h₁ h₂
  have key : ∀ name input,
      cell0 (inputRow noTypes name input) = backtickString name ∧
      (inputRow noTypes name input).getLast? =
        some (if input.Default = "" then "`N/A`" else "`" ++ input.Default ++ "`") ∧
      column (inputsHeader noTypes) "Default" (inputRow noTypes name input) =
        (inputRow noTypes name input).getLast? := by
    intro name input
    refine ⟨cell0_inputRow _ _ _, ?_, ?_⟩
    · cases noTypes <;> by_cases hd : input.Default = "" <;>
        simp [inputRow, hd, backtickString]
    · cases noTypes <;> simp [inputRow, inputsHeader, column, List.indexOf_cons]
  refine ⟨_, rows, he, ?_, ?_⟩
  · intro name input hmem
    exact ⟨_, (hrows _).mpr ⟨name, input, hmem, rfl⟩, key name input⟩
  · intro row hrow
    obtain ⟨name, input, hmem, rfl⟩ := (hrows row).mp hrow
    exact ⟨name, input, hmem, key name input⟩

/-- C3, at the untyped inputs of the test: the row of `github_token`, which has
no default, ends in N/A between backticks. -/
theorem writeTableInputs_default_cell_witness :
    NonNil testInputs ∧
    ∃ header rows,
      writeTableInputs id List.reverse (newMarkdownTableWriter []) testInputs =
        some (rendered (newMarkdownTableWriter []) header rows) ∧
      ∃ row ∈ rows, cell0 row = backtickString "github_token" ∧
        row.getLast? = some "`N/A`" := by
  have hnil : NonNil testInputs := by decide
  obtain ⟨header, rows, he, hent, _⟩ :=
    writeTableInputs_default_cell id List.reverse (newMarkdownTableWriter []) testInputs hnil
      (List.Perm.refl _) (List.reverse_perm _)
  obtain ⟨row, hrow, h0, hlast, _⟩ :=
    hent "github_token" (Input.mk "A GitHub token." "" true "") (by decide)
  exact ⟨hnil, header, rows, he, row, hrow, h0, by simpa using hlast⟩

/-- C4: for every input entry the Required cell, the cell under the header
Required, is `true` between backticks when the entry is required and `false`
between backticks when it is not, and nothing else; `backtickBool` has these two
results only. -/
theorem writeTableInputs_required_cell (r₁ r₂ : Range (Option Input))
    (w : markdownTableWriter) (inputs : Inputs) (hnil : NonNil inputs)
    (h₁ : (r₁ inputs).Perm inputs) (h₂ : (r₂ inputs).Perm inputs) :
    (backtickBool true = "`true`" ∧ backtickBool false = "`false`") ∧
    ∃ header rows, writeTableInputs r₁ r₂ w inputs = some (rendered w header rows) ∧
      (∀ name input, (name, some input) ∈ inputs →
        ∃ row ∈ rows, cell0 row = backtickString name ∧
          column header "Required" row =
            some (if input.Required = true then "`true`" else "`false`")) ∧
      (∀ row ∈ rows, ∃ name input, (name, some input) ∈ inputs ∧
          cell0 row = backtickString name ∧
          column header "Required" row =
            some (if input.Required = true then "`true`" else "`false`") ∧
          (column header "Required" row = some "`true`" ∨
            column header "Required" row = some "`false`")) := by
  obtain ⟨noTypes, rows, -, he, hrows⟩ := writeTableInputs_rows r₁ r₂ w inputs hnil h₁ h₂
  have key : ∀ name input,
      column (inputsHeader noTypes) "Required" (inputRow noTypes name input) =
        some (if input.Required = true then "`true`" else "`false`") := by
    intro name input
    cases noTypes <;> cases hr : input.Required <;>
      simp [inputRow, inputsHeader, column, List.indexOf_cons, backtickBool, hr]
  refine ⟨⟨by decide, by decide⟩, _, rows, he, ?_, ?_⟩
  · intro name input hmem
    exact ⟨_, (hrows _).mpr ⟨name, input, hmem, rfl⟩, cell0_inputRow _ _ _, key name input⟩
  · intro row hrow
    obtain ⟨name, input, hmem, rfl⟩ := (hrows row).mp hrow
    refine ⟨name, input, hmem, cell0_inputRow _ _ _, key name input, ?_⟩
    rw [key name input]
    cases input.Required
    · exact Or.inr (by simp)
    · exact Or.inl (by simp)

/-- C4, at the untyped inputs of the test: the row of `repo`, which is not
required, has `false` between backticks under Required. -/
theorem writeTableInputs_required_cell_witness :
    NonNil testInputs ∧
    ∃ header rows,
      writeTableInputs List.reverse id (newMarkdownTableWriter []) testInputs =
        some (rendered (newMarkdownTableWriter []) header rows) ∧
      ∃ row ∈ rows, cell0 row = backtickString "repo" ∧
        column header "Required" row = some "`false`" := by
  have hnil : NonNil testInputs := by decide
  obtain ⟨_, header, rows, he, hent, _⟩ :=
    writeTableInputs_required_cell List.reverse id (newMarkdownTableWriter []) testInputs hnil
      (List.reverse_perm _) (List.Perm.refl _)
  obtain ⟨row, hrow, h0, hreq⟩ :=
    hent "repo" (Input.mk "The owner and repository name. e.g.) Codertocat/Hello-World." ""
      false "$\x7b\x7b github.repository \x7d\x7d") (by decide)
  exact ⟨hnil, header, rows, he, row, hrow, h0, by simpa using hreq⟩

/-- C5: for every entry of a set of inputs or of outputs, the Name cell of its
row is the name between backticks, and when the header has the Type column the
Type cell is the type between backticks; `backtickString` puts one backtick on
each side of its argument. -/
theorem name_and_type_cells (ri₁ ri₂ : Range (Option Input)) (ro₁ ro₂ : Range (Option Output))
    (w : markdownTableWriter) (inputs : Inputs) (outputs : Outputs)
    (hi : NonNil inputs) (hi₁ : (ri₁ inputs).Perm inputs) (hi₂ : (ri₂ inputs).Perm inputs)
    (ho : NonNil outputs) (ho₁ : (ro₁ outputs).Perm outputs)
    (ho₂ : (ro₂ outputs).Perm outputs) :
    (∀ s, backtickString s = "`" ++ s ++ "`") ∧
    (∃ header rows, writeTableInputs ri₁ ri₂ w inputs = some (rendered w header rows) ∧
      (∀ name input, (name, some input) ∈ inputs →
        ∃ row ∈ rows, column header "Name" row = some ("`" ++ name ++ "`") ∧
          ("Type" ∈ header → column header "Type" row = some ("`" ++ input.Type_ ++ "`"))) ∧
      (∀ row ∈ rows, ∃ name input, (name, some input) ∈ inputs ∧
          column header "Name" row = some ("`" ++ name ++ "`") ∧
          ("Type" ∈ header → column header "Type" row = some ("`" ++ input.Type_ ++ "`")))) ∧
    (∃ header rows, writeTableOutputs ro₁ ro₂ w outputs = some (rendered w header rows) ∧
      (∀ name output, (name, some output) ∈ outputs →
        ∃ row ∈ rows, column header "Name" row = some ("`" ++ name ++ "`") ∧
          ("Type" ∈ header → column header "Type" row = some ("`" ++ output.Type_ ++ "`"))) ∧
      (∀ row ∈ rows, ∃ name output, (name, some output) ∈ outputs ∧
          column header "Name" row = some ("`" ++ name ++ "`") ∧
          ("Type" ∈ header →
            column header "Type" row = some ("`" ++ output.Type_ ++ "`")))) := by
  obtain ⟨nti, rowsi, -, hei, hrowsi⟩ := writeTableInputs_rows ri₁ ri₂ w inputs hi hi₁ hi₂
  obtain ⟨nto, rowso, -, heo, hrowso⟩ := writeTableOutputs_rows ro₁ ro₂ w outputs ho ho₁ ho₂
  have keyi : ∀ name input,
      column (inputsHeader nti) "Name" (inputRow nti name input) = some ("`" ++ name ++ "`") ∧
      ("Type" ∈ inputsHeader nti →
        column (inputsHeader nti) "Type" (inputRow nti name input) =
          some ("`" ++ input.Type_ ++ "`")) := by
    intro name input
    cases nti <;>
      simp [inputRow, inputsHeader, column, List.indexOf_cons, backtickString]
  have keyo : ∀ name output,
      column (outputsHeader nto) "Name" (outputRow nto name output) =
        some ("`" ++ name ++ "`") ∧
      ("Type" ∈ outputsHeader nto →
        column (outputsHeader nto) "Type" (outputRow nto name output) =
          some ("`" ++ output.Type_ ++ "`")) := by
    intro name output
    cases nto <;>
      simp [outputRow, outputsHeader, column, List.indexOf_cons, backtickString]
  refine ⟨fun _ => rfl, ⟨_, rowsi, hei, ?_, ?_⟩, ⟨_, rowso, heo, ?_, ?_⟩⟩
  · intro name input hmem
    exact ⟨_, (hrowsi _).mpr ⟨name, input, hmem, rfl⟩, keyi name input⟩
  · intro row hrow
    obtain ⟨name, input, hmem, rfl⟩ := (hrowsi row).mp hrow
    exact ⟨name, input, hmem, keyi name input⟩
  · intro name output hmem
    exact ⟨_, (hrowso _).mpr ⟨name, output, hmem, rfl⟩, keyo name output⟩
  · intro row hrow
    obtain ⟨name, output, hmem, rfl⟩ := (hrowso row).mp hrow
    exact ⟨name, output, hmem, keyo name output⟩

/-- C5, at the typed inputs and outputs of the test: every row of the outputs has
a name between backticks in its first column. -/
theorem name_and_type_cells_witness :
    NonNil testInputsTyped ∧ NonNil testOutputsTyped ∧
    ∃ header rows,
      writeTableOutputs id List.reverse (newMarkdownTableWriter []) testOutputsTyped =
        some (rendered (newMarkdownTableWriter []) header rows) ∧
      ∀ row ∈ rows, ∃ name output, (name, some output) ∈ testOutputsTyped ∧
        column header "Name" row = some ("`" ++ name ++ "`") := by
  have hi : NonNil testInputsTyped := by decide
  have ho : NonNil testOutputsTyped := by decide
  obtain ⟨_, _, header, rows, he, _, hrow⟩ :=
    name_and_type_cells List.reverse id id List.reverse (newMarkdownTableWriter [])
      testInputsTyped testOutputsTyped hi (List.reverse_perm _) (List.Perm.refl _) ho
      (List.Perm.refl _) (List.reverse_perm _)
  refine ⟨hi, ho, header, rows, he, fun row hr => ?_⟩
  obtain ⟨name, output, hmem, hname, _⟩ := hrow row hr
  exact ⟨name, output, hmem, hname⟩

/-- C6: for every set of outputs without nil entries (the empty set too),
`writeTableOutputs` sets the header Name, Description, Type when every entry has a
non-empty type, and then every row has 3 cells, the third one the Type cell of
its entry; it sets the header Name, Description when some entry has an empty
type, and then every row has 2 cells, the name and the description, also the row
of an entry that has a type. -/
theorem writeTableOutputs_columns (r₁ r₂ : Range (Option Output)) (w : markdownTableWriter)
    (outputs : Outputs) (hnil : NonNil outputs) (h₁ : (r₁ outputs).Perm outputs)
    (h₂ : (r₂ outputs).Perm outputs) :
    ∃ header rows, writeTableOutputs r₁ r₂ w outputs = some (rendered w header rows) ∧
      ((∀ name output, (name, some output) ∈ outputs → output.Type_ ≠ "") →
        header = ["Name", "Description", "Type"] ∧
        (∀ row ∈ rows, row.length = 3 ∧
          ∃ name output, (name, some output) ∈ outputs ∧
            row[0]? = some (backtickString name) ∧
            row[2]? = some (backtickString output.Type_))) ∧
      ((∃ name output, (name, some output) ∈ outputs ∧ output.Type_ = "") →
        header = ["Name", "Description"] ∧
        (∀ row ∈ rows, row.length = 2 ∧
          ∃ name output, (name, some output) ∈ outputs ∧
            row = [backtickString name, output.Description]) ∧
        (∀ name output, (name, some output) ∈ outputs →
          [backtickString name, output.Description] ∈ rows)) := by
  obtain ⟨noTypes, rows, hnt, he, hrows⟩ := writeTableOutputs_rows r₁ r₂ w outputs hnil h₁ h₂
  refine ⟨_, rows, he, ?_, ?_⟩
  · intro hall
    have hf : noTypes = false := by
      cases noTypes with
      | false => rfl
      | true =>
        obtain ⟨name, output, hmem, hty⟩ := hnt.mp rfl
        exact absurd hty (hall name output hmem)
    subst hf
    refine ⟨rfl, ?_⟩
    intro row hrow
    obtain ⟨name, output, hmem, rfl⟩ := (hrows row).mp hrow
    exact ⟨rfl, name, output, hmem, rfl, rfl⟩
  · intro hex
    have ht : noTypes = true := hnt.mpr hex
    subst ht
    refine ⟨rfl, ?_, ?_⟩
    · intro row hrow
      obtain ⟨name, output, hmem, rfl⟩ := (hrows row).mp hrow
      exact ⟨rfl, name, output, hmem, rfl⟩
    · intro name output hmem
      exact (hrows _).mpr ⟨name, output, hmem, rfl⟩

/-- C6, at two outputs of which only `result` has a type: the header is Name,
Description and the row of `result` has two cells. -/
theorem writeTableOutputs_columns_witness :
    NonNil mixedOutputs ∧
    ∃ header rows,
      writeTableOutputs id List.reverse (newMarkdownTableWriter []) mixedOutputs =
        some (rendered (newMarkdownTableWriter []) header rows) ∧
      header = ["Name", "Description"] ∧
      [backtickString "result", "The result of the action."] ∈ rows ∧
      ∀ row ∈ rows, row.length = 2 := by
  have hnil : NonNil mixedOutputs := by decide
  obtain ⟨header, rows, he, _, h2⟩ :=
    writeTableOutputs_columns id List.reverse (newMarkdownTableWriter []) mixedOutputs hnil
      (List.Perm.refl _) (List.reverse_perm _)
  obtain ⟨hh, hlen, hmem⟩ :=
    h2 ⟨"note", Output.mk "The note about the action." "", by decide, rfl⟩
  exact ⟨hnil, header, rows, he, hh,
    hmem "result" (Output.mk "The result of the action." valueTypeString) (by decide),
    fun row hr => (hlen row hr).1⟩

theorem uniqueKeys_perm {α : Type} {l₁ l₂ : List (String × α)} (h : l₁.Perm l₂) :
    UniqueKeys l₁ ↔ UniqueKeys l₂ :=
  (h.map Prod.fst).nodup_iff

/-- The rows of two enumerations of one map sort to the same list. -/
theorem sorted_rowsOf_congr {α : Type} (row : String → α → List String)
    (hrow : ∀ name v, cell0 (row name v) = backtickString name)
    (m l₁ l₂ : List (String × Option α)) (hu : UniqueKeys m) (h₁ : l₁.Perm m)
    (h₂ : l₂.Perm m) : sortSlice (rowsOf row l₁) = sortSlice (rowsOf row l₂) :=
  sortSlice_congr _ _ (nodup_cell0_rowsOf row hrow l₂ ((uniqueKeys_perm h₂).mpr hu))
    (rowsOf_perm row (h₁.trans h₂.symm))

/-- C7: the tables are a function of the map alone: whatever orders the two loops
of `writeTableInputs` (of `writeTableOutputs`) visit the entries in, a map with
pairwise distinct keys gives the same result, the header, the ordered rows and
the writes to the stream, or the same panic. -/
theorem writeTable_deterministic (w : markdownTableWriter) (inputs : Inputs)
    (outputs : Outputs) (ri₁ ri₂ ri₁' ri₂' : Range (Option Input))
    (ro₁ ro₂ ro₁' ro₂' : Range (Option Output))
    (hui : UniqueKeys inputs) (huo : UniqueKeys outputs)
    (hi₁ : (ri₁ inputs).Perm inputs) (hi₂ : (ri₂ inputs).Perm inputs)
    (hi₁' : (ri₁' inputs).Perm inputs) (hi₂' : (ri₂' inputs).Perm inputs)
    (ho₁ : (ro₁ outputs).Perm outputs) (ho₂ : (ro₂ outputs).Perm outputs)
    (ho₁' : (ro₁' outputs).Perm outputs) (ho₂' : (ro₂' outputs).Perm outputs) :
    writeTableInputs ri₁ ri₂ w inputs = writeTableInputs ri₁' ri₂' w inputs ∧
    writeTableOutputs ro₁ ro₂ w outputs = writeTableOutputs ro₁' ro₂' w outputs := by
  constructor
  · by_cases hnil : NonNil inputs
    · rw [writeTableInputs_eq _ _ _ _ hnil hi₁ hi₂, writeTableInputs_eq _ _ _ _ hnil hi₁' hi₂',
        sorted_rowsOf_congr _ (cell0_inputRow _) inputs _ _ hui hi₂ hi₂']
    · rw [writeTableInputs_nil _ _ _ _ hnil hi₂, writeTableInputs_nil _ _ _ _ hnil hi₂']
  · by_cases hnil : NonNil outputs
    · rw [writeTableOutputs_eq _ _ _ _ hnil ho₁ ho₂,
        writeTableOutputs_eq _ _ _ _ hnil ho₁' ho₂',
        sorted_rowsOf_congr _ (cell0_outputRow _) outputs _ _ huo ho₂ ho₂']
    · rw [writeTableOutputs_nil _ _ _ _ hnil ho₂, writeTableOutputs_nil _ _ _ _ hnil ho₂']

/-- C7, at the inputs and outputs of the test: visiting the maps forwards or
backwards gives the same tables. -/
theorem writeTable_deterministic_witness :
    UniqueKeys testInputs ∧ UniqueKeys testOutputs ∧
    writeTableInputs id id (newMarkdownTableWriter []) testInputs =
      writeTableInputs List.reverse List.reverse (newMarkdownTableWriter []) testInputs ∧
    writeTableOutputs id id (newMarkdownTableWriter []) testOutputs =
      writeTableOutputs List.reverse List.reverse (newMarkdownTableWriter []) testOutputs := by
  have hui : UniqueKeys testInputs := by decide
  have huo : UniqueKeys testOutputs := by decide
  exact ⟨hui, huo,
    writeTable_deterministic (newMarkdownTableWriter []) testInputs testOutputs
      id id List.reverse List.reverse id id List.reverse List.reverse hui huo
      (List.Perm.refl _) (List.Perm.refl _) (List.reverse_perm _) (List.reverse_perm _)
      (List.Perm.refl _) (List.Perm.refl _) (List.reverse_perm _) (List.reverse_perm _)⟩

/-! ## main -/

theorem nonNil_collectInputs (ask : Ask) (l : Inputs) : NonNil (collectInputs ask l) ↔ NonNil l := by
  induction l with
  | nil => simp [NonNil, collectInputs]
  | cons p rest ih =>
    obtain ⟨name, v⟩ := p
    have hc : collectInputs ask ((name, v) :: rest) =
        (name, v.map fun input =>
          { input with Type_ := askOne ask (inputPrompt name) input.Type_ }) ::
          collectInputs ask rest := rfl
    rw [hc, nonNil_cons, nonNil_cons, ih]
    cases v <;> simp

theorem nonNil_collectOutputs (ask : Ask) (l : Outputs) :
    NonNil (collectOutputs ask l) ↔ NonNil l := by
  induction l with
  | nil => simp [NonNil, collectOutputs]
  | cons p rest ih =>
    obtain ⟨name, v⟩ := p
    have hc : collectOutputs ask ((name, v) :: rest) =
        (name, v.map fun output =>
          { output with Type_ := askOne ask (outputPrompt name) output.Type_ }) ::
          collectOutputs ask rest := rfl
    rw [hc, nonNil_cons, nonNil_cons, ih]
    cases v <;> simp

theorem promptInputs_of_nonNil (ask : Ask) (l : Inputs) (h : NonNil l) :
    promptInputs ask l = some (collectInputs ask l, l.map fun p => inputPrompt p.1) := by
  induction l with
  | nil => rfl
  | cons p rest ih =>
    obtain ⟨name, v⟩ := p
    rw [nonNil_cons] at h
    cases v with
    | none => exact absurd rfl h.1
    | some input => simp [promptInputs, ih h.2, collectInputs]

theorem promptOutputs_of_nonNil (ask : Ask) (l : Outputs) (h : NonNil l) :
    promptOutputs ask l = some (collectOutputs ask l, l.map fun p => outputPrompt p.1) := by
  induction l with
  | nil => rfl
  | cons p rest ih =>
    obtain ⟨name, v⟩ := p
    rw [nonNil_cons] at h
    cases v with
    | none => exact absurd rfl h.1
    | some output => simp [promptOutputs, ih h.2, collectOutputs]

theorem nonNil_collected (flags : Flags) (s : Schedule) (ask : Ask) (m : Manifest)
    (hs : s.Valid) (hi : NonNil m.Inputs) (ho : NonNil m.Outputs) :
    NonNil (collected flags s ask m).Inputs ∧ NonNil (collected flags s ask m).Outputs := by
  obtain ⟨hpi, hpo, -⟩ := hs
  constructor
  · unfold collected
    dsimp only
    split
    · exact (nonNil_collectInputs _ _).mpr ((nonNil_perm (hpi _)).mpr hi)
    · exact hi
  · unfold collected
    dsimp only
    split
    · exact (nonNil_collectOutputs _ _).mpr ((nonNil_perm (hpo _)).mpr ho)
    · exact ho

/-- A run of `main` on a manifest without nil entries does not panic: it leaves
the collected manifest and has asked the gated prompts. -/
theorem main_eq (flags : Flags) (s : Schedule) (ask : Ask) (m : Manifest)
    (hs : s.Valid) (hi : NonNil m.Inputs) (ho : NonNil m.Outputs) :
    ∃ stdout, main flags s ask m =
      some { manifest := collected flags s ask m, prompts := asked flags s m, stdout := stdout } := by
  obtain ⟨hci, hco⟩ := nonNil_collected flags s ask m hs hi ho
  obtain ⟨hpi, hpo, hni, hdi, hno, hdo⟩ := hs
  have e₁ : (if (flags.hasTypes && !flags.onlyOutput) = true then
        promptInputs ask (s.promptInputs m.Inputs) else some (m.Inputs, [])) =
      some ((collected flags s ask m).Inputs,
        if (flags.hasTypes && !flags.onlyOutput) = true then
          (s.promptInputs m.Inputs).map fun p => inputPrompt p.1 else []) := by
    unfold collected
    split
    · rw [promptInputs_of_nonNil _ _ ((nonNil_perm (hpi _)).mpr hi)]
    · rfl
  have e₂ : (if (flags.hasTypes && !flags.onlyInput) = true then
        promptOutputs ask (s.promptOutputs m.Outputs) else some (m.Outputs, [])) =
      some ((collected flags s ask m).Outputs,
        if (flags.hasTypes && !flags.onlyInput) = true then
          (s.promptOutputs m.Outputs).map fun p => outputPrompt p.1 else []) := by
    unfold collected
    split
    · rw [promptOutputs_of_nonNil _ _ ((nonNil_perm (hpo _)).mpr ho)]
    · rfl
  have wi : ∀ w, ∃ w', writeTableInputs s.inputsNoTypes s.inputsData w
      (collected flags s ask m).Inputs = some w' := fun w =>
    ⟨_, writeTableInputs_eq _ _ w _ hci (hni _) (hdi _)⟩
  have wo : ∀ w, ∃ w', writeTableOutputs s.outputsNoTypes s.outputsData w
      (collected flags s ask m).Outputs = some w' := fun w =>
    ⟨_, writeTableOutputs_eq _ _ w _ hco (hno _) (hdo _)⟩
  obtain ⟨w₁, hw₁⟩ := wi (newMarkdownTableWriter [])
  obtain ⟨w₂, hw₂⟩ := wo (newMarkdownTableWriter [])
  obtain ⟨w₃, hw₃⟩ := wo { w₁ with out := w₁.out ++ [Written.newline] }
  unfold main
  simp only [e₁, e₂, hw₁, hw₂]
  obtain ⟨oi, oo, ht⟩ := flags
  cases oi <;> cases oo
  · simp only [Bool.false_eq_true, if_false]
    simp only [hw₃]
    exact ⟨_, rfl⟩
  · simp only [Bool.false_eq_true, if_false, if_true]
    exact ⟨_, rfl⟩
  · simp only [if_true]
    exact ⟨_, rfl⟩
  · simp only [if_true]
    exact ⟨_, rfl⟩

theorem inputPrompt_ne_outputPrompt (a b : String) : inputPrompt a ≠ outputPrompt b := by
  intro h
  have h' := congrArg (fun p => p.Message.toList[9]?) h
  simp [inputPrompt, outputPrompt] at h'

theorem askOne_eq (ask : Ask) (prompt : Prompt) (target : String) :
    askOne ask prompt target = (ask prompt).getD target := by
  unfold askOne
  cases ask prompt <;> rfl

theorem mem_collectInputs (ask : Ask) (l : Inputs) (name : String) (input : Input)
    (h : (name, some input) ∈ l) :
    (name, some { input with Type_ := askOne ask (inputPrompt name) input.Type_ }) ∈
      collectInputs ask l :=
  List.mem_map.mpr ⟨(name, some input), h, rfl⟩

theorem mem_collectOutputs (ask : Ask) (l : Outputs) (name : String) (output : Output)
    (h : (name, some output) ∈ l) :
    (name, some { output with Type_ := askOne ask (outputPrompt name) output.Type_ }) ∈
      collectOutputs ask l :=
  List.mem_map.mpr ⟨(name, some output), h, rfl⟩

theorem keys_collectInputs (ask : Ask) (l : Inputs) :
    (collectInputs ask l).map Prod.fst = l.map Prod.fst := by
  simp [collectInputs, Function.comp_def]

theorem keys_collectOutputs (ask : Ask) (l : Outputs) :
    (collectOutputs ask l).map Prod.fst = l.map Prod.fst := by
  simp [collectOutputs, Function.comp_def]

/-- C8, at one input and one output in default mode: the run writes the table of
inputs, a line break and a second table; that second table is the same table
object, which before its second `Render` has received the header and the row of
the inputs, then the header and the row of the outputs, and no call in between
that would remove the former. -/
theorem main_default_reuses_table :
    main ⟨false, false, false⟩ Schedule.inOrder (fun _ => none) smallManifest =
      some
        { manifest := smallManifest
          prompts := []
          stdout :=
            [Written.table
              [TableCall.SetBorders true false true false, TableCall.SetCenterSeparator "|",
                TableCall.SetColWidth 256,
                TableCall.SetHeader ["Name", "Description", "Required", "Default"],
                TableCall.AppendBulk [["`token`", "A token.", "`true`", "`N/A`"]]],
              Written.newline,
              Written.table
                [TableCall.SetBorders true false true false, TableCall.SetCenterSeparator "|",
                  TableCall.SetColWidth 256,
                  TableCall.SetHeader ["Name", "Description", "Required", "Default"],
                  TableCall.AppendBulk [["`token`", "A token.", "`true`", "`N/A`"]],
                  TableCall.Render,
                  TableCall.SetHeader ["Name", "Description"],
                  TableCall.AppendBulk [["`result`", "The result."]]]] } := by
  decide

/-- C9, refuted at an input that has the type `string` when loaded: with `-type`
the entry is prompted all the same, and the answer `number` replaces its type. -/
theorem main_prompts_typed_entry :
    typedManifest.Inputs = [("token", some (Input.mk "A token." "string" true ""))] ∧
    (main ⟨false, false, true⟩ Schedule.inOrder (fun _ => some "number") typedManifest).map
        (fun run => (run.prompts, run.manifest.Inputs)) =
      some ([inputPrompt "token"], [("token", some (Input.mk "A token." "number" true ""))]) := by
  decide

theorem collected_inputs_entry (flags : Flags) (s : Schedule) (ask : Ask) (m : Manifest)
    (hp : (s.promptInputs m.Inputs).Perm m.Inputs) (name : String) (input : Input)
    (h : (name, some input) ∈ m.Inputs) :
    (name, some { input with Type_ :=
        if (flags.hasTypes && !flags.onlyOutput) = true then
          (ask (inputPrompt name)).getD input.Type_
        else input.Type_ }) ∈ (collected flags s ask m).Inputs := by
  unfold collected
  dsimp only
  split
  · rw [← askOne_eq]
    exact mem_collectInputs ask _ name input (hp.mem_iff.mpr h)
  · exact h

theorem collected_outputs_entry (flags : Flags) (s : Schedule) (ask : Ask) (m : Manifest)
    (hp : (s.promptOutputs m.Outputs).Perm m.Outputs) (name : String) (output : Output)
    (h : (name, some output) ∈ m.Outputs) :
    (name, some { output with Type_ :=
        if (flags.hasTypes && !flags.onlyInput) = true then
          (ask (outputPrompt name)).getD output.Type_
        else output.Type_ }) ∈ (collected flags s ask m).Outputs := by
  unfold collected
  dsimp only
  split
  · rw [← askOne_eq]
    exact mem_collectOutputs ask _ name output (hp.mem_iff.mpr h)
  · exact h

theorem collected_keys (flags : Flags) (s : Schedule) (ask : Ask) (m : Manifest)
    (hpi : (s.promptInputs m.Inputs).Perm m.Inputs)
    (hpo : (s.promptOutputs m.Outputs).Perm m.Outputs) :
    ((collected flags s ask m).Inputs.map Prod.fst).Perm (m.Inputs.map Prod.fst) ∧
    ((collected flags s ask m).Outputs.map Prod.fst).Perm (m.Outputs.map Prod.fst) := by
  constructor
  · unfold collected
    dsimp only
    split
    · rw [keys_collectInputs]; exact hpi.map _
    · exact List.Perm.refl _
  · unfold collected
    dsimp only
    split
    · rw [keys_collectOutputs]; exact hpo.map _
    · exact List.Perm.refl _

/-- C9, as amended: with `-type`, a run on a manifest without nil entries asks one
prompt for every entry of the inputs unless `-output` is given, and one for every
entry of the outputs unless `-input` is given, whether or not the entry has a
type; the type of a prompted entry becomes the answer, or stays when the prompt
is cancelled; the keys and every field other than the type stay as loaded. -/
theorem collection_prompts_every_entry (flags : Flags) (s : Schedule) (ask : Ask)
    (m : Manifest) (hs : s.Valid) (hi : NonNil m.Inputs) (ho : NonNil m.Outputs)
    (ht : flags.hasTypes = true) :
    ∃ run, main flags s ask m = some run ∧
      (∃ (vi : Inputs) (vo : Outputs), vi.Perm m.Inputs ∧ vo.Perm m.Outputs ∧
        run.prompts =
          (if flags.onlyOutput = true then [] else vi.map fun p => inputPrompt p.1) ++
          (if flags.onlyInput = true then [] else vo.map fun p => outputPrompt p.1)) ∧
      (run.manifest.Inputs.map Prod.fst).Perm (m.Inputs.map Prod.fst) ∧
      (run.manifest.Outputs.map Prod.fst).Perm (m.Outputs.map Prod.fst) ∧
      (∀ name input, (name, some input) ∈ m.Inputs →
        ∃ input', (name, some input') ∈ run.manifest.Inputs ∧
          input'.Description = input.Description ∧ input'.Required = input.Required ∧
          input'.Default = input.Default ∧
          input'.Type_ =
            if flags.onlyOutput = true then input.Type_
            else (ask (inputPrompt name)).getD input.Type_) ∧
      (∀ name output, (name, some output) ∈ m.Outputs →
        ∃ output', (name, some output') ∈ run.manifest.Outputs ∧
          output'.Description = output.Description ∧
          output'.Type_ =
            if flags.onlyInput = true then output.Type_
            else (ask (outputPrompt name)).getD output.Type_) := by
  obtain ⟨stdout, hmain⟩ := main_eq flags s ask m hs hi ho
  obtain ⟨hpi, hpo, -⟩ := hs
  obtain ⟨hki, hko⟩ := collected_keys flags s ask m (hpi _) (hpo _)
  refine ⟨_, hmain, ⟨s.promptInputs m.Inputs, s.promptOutputs m.Outputs, hpi _, hpo _, ?_⟩,
    hki, hko, ?_, ?_⟩
  · show asked flags s m = _
    unfold asked
    rw [ht]
    cases flags.onlyOutput <;> cases flags.onlyInput <;> rfl
  · intro name input hmem
    refine ⟨_, collected_inputs_entry flags s ask m (hpi _) name input hmem, rfl, rfl, rfl, ?_⟩
    rw [ht]
    cases flags.onlyOutput <;> rfl
  · intro name output hmem
    refine ⟨_, collected_outputs_entry flags s ask m (hpo _) name output hmem, rfl, ?_⟩
    rw [ht]
    cases flags.onlyInput <;> rfl

theorem valid_inOrder : Schedule.inOrder.Valid :=
  ⟨fun _ => List.Perm.refl _, fun _ => List.Perm.refl _, fun _ => List.Perm.refl _,
    fun _ => List.Perm.refl _, fun _ => List.Perm.refl _, fun _ => List.Perm.refl _⟩

/-- C9 as amended, at the input that has a type when loaded: it is prompted and
takes the answer. -/
theorem collection_prompts_every_entry_witness :
    NonNil typedManifest.Inputs ∧ NonNil typedManifest.Outputs ∧
    ∃ run, main ⟨false, false, true⟩ Schedule.inOrder (fun _ => some "number") typedManifest =
        some run ∧
      ∃ input', ("token", some input') ∈ run.manifest.Inputs ∧ input'.Type_ = "number" := by
  have hi : NonNil typedManifest.Inputs := by decide
  have ho : NonNil typedManifest.Outputs := by decide
  obtain ⟨run, hrun, _, _, _, hin, _⟩ :=
    collection_prompts_every_entry ⟨false, false, true⟩ Schedule.inOrder
      (fun _ => some "number") typedManifest valid_inOrder hi ho rfl
  obtain ⟨input', hmem, _, _, _, hty⟩ :=
    hin "token" (Input.mk "A token." "string" true "") (by decide)
  exact ⟨hi, ho, run, hrun, input', hmem, by simpa using hty⟩

theorem inputPrompt_injective {a b : String} (h : inputPrompt a = inputPrompt b) : a = b := by
  have h' := congrArg (fun p => p.Message.toList) h
  simp only [inputPrompt, String.toList, String.data_append] at h'
  exact String.toList_inj.mp (List.append_cancel_left (List.append_cancel_right h'))

theorem outputPrompt_injective {a b : String} (h : outputPrompt a = outputPrompt b) :
    a = b := by
  have h' := congrArg (fun p => p.Message.toList) h
  simp only [outputPrompt, String.toList, String.data_append] at h'
  exact String.toList_inj.mp (List.append_cancel_left (List.append_cancel_right h'))

theorem inputPrompt_mem_asked (flags : Flags) (s : Schedule) (m : Manifest)
    (hp : (s.promptInputs m.Inputs).Perm m.Inputs) (name : String) :
    inputPrompt name ∈ asked flags s m ↔
      name ∈ m.Inputs.map Prod.fst ∧ flags.hasTypes = true ∧ flags.onlyOutput = false := by
  unfold asked
  rw [List.mem_append]
  constructor
  · rintro (h | h)
    · split at h
      · rename_i hg
        obtain ⟨p, hmem, hpn⟩ := List.mem_map.mp h
        have hname : p.1 = name := inputPrompt_injective hpn
        exact ⟨List.mem_map.mpr ⟨p, hp.mem_iff.mp hmem, hname⟩, by simpa using hg⟩
      · simp at h
    · split at h
      · obtain ⟨p, -, hpn⟩ := List.mem_map.mp h
        exact absurd hpn.symm (inputPrompt_ne_outputPrompt _ _)
      · simp at h
  · rintro ⟨hmem, ht, ho⟩
    obtain ⟨p, hpm, rfl⟩ := List.mem_map.mp hmem
    left
    rw [if_pos (by simp [ht, ho])]
    exact List.mem_map.mpr ⟨p, hp.mem_iff.mpr hpm, rfl⟩

theorem outputPrompt_mem_asked (flags : Flags) (s : Schedule) (m : Manifest)
    (hp : (s.promptOutputs m.Outputs).Perm m.Outputs) (name : String) :
    outputPrompt name ∈ asked flags s m ↔
      name ∈ m.Outputs.map Prod.fst ∧ flags.hasTypes = true ∧ flags.onlyInput = false := by
  unfold asked
  rw [List.mem_append]
  constructor
  · rintro (h | h)
    · split at h
      · obtain ⟨p, -, hpn⟩ := List.mem_map.mp h
        exact absurd hpn (inputPrompt_ne_outputPrompt _ _)
      · simp at h
    · split at h
      · rename_i hg
        obtain ⟨p, hmem, hpn⟩ := List.mem_map.mp h
        have hname : p.1 = name := outputPrompt_injective hpn
        exact ⟨List.mem_map.mpr ⟨p, hp.mem_iff.mp hmem, hname⟩, by simpa using hg⟩
      · simp at h
  · rintro ⟨hmem, ht, ho⟩
    obtain ⟨p, hpm, rfl⟩ := List.mem_map.mp hmem
    right
    rw [if_pos (by simp [ht, ho])]
    exact List.mem_map.mpr ⟨p, hp.mem_iff.mpr hpm, rfl⟩

theorem mem_asked (flags : Flags) (s : Schedule) (m : Manifest) (p : Prompt)
    (h : p ∈ asked flags s m) : (∃ name, p = inputPrompt name) ∨ ∃ name, p = outputPrompt name := by
  unfold asked at h
  rw [List.mem_append] at h
  rcases h with h | h
  · split at h
    · obtain ⟨q, -, hq⟩ := List.mem_map.mp h
      exact Or.inl ⟨q.1, hq.symm⟩
    · simp at h
  · split at h
    · obtain ⟨q, -, hq⟩ := List.mem_map.mp h
      exact Or.inr ⟨q.1, hq.symm⟩
    · simp at h

/-- C10: in a run on a manifest without nil entries, the prompt of an input is
asked if and only if the input is in the manifest, `-type` is set and `-output`
is not; the prompt of an output is asked if and only if the output is in the
manifest, `-type` is set and `-input` is not; nothing else is asked; without
`-type` no prompt is asked and the manifest stays as loaded. -/
theorem collection_gated_by_flags (flags : Flags) (s : Schedule) (ask : Ask) (m : Manifest)
    (hs : s.Valid) (hi : NonNil m.Inputs) (ho : NonNil m.Outputs) :
    ∃ run, main flags s ask m = some run ∧
      (∀ name, inputPrompt name ∈ run.prompts ↔
        name ∈ m.Inputs.map Prod.fst ∧ flags.hasTypes = true ∧ flags.onlyOutput = false) ∧
      (∀ name, outputPrompt name ∈ run.prompts ↔
        name ∈ m.Outputs.map Prod.fst ∧ flags.hasTypes = true ∧ flags.onlyInput = false) ∧
      (∀ p ∈ run.prompts, (∃ name, p = inputPrompt name) ∨ ∃ name, p = outputPrompt name) ∧
      (flags.hasTypes = false → run.prompts = [] ∧ run.manifest = m) := by
  obtain ⟨stdout, hmain⟩ := main_eq flags s ask m hs hi ho
  obtain ⟨hpi, hpo, -⟩ := hs
  refine ⟨_, hmain, inputPrompt_mem_asked flags s m (hpi _),
    outputPrompt_mem_asked flags s m (hpo _), mem_asked flags s m, ?_⟩
  intro ht
  constructor
  · show asked flags s m = []
    simp [asked, ht]
  · show collected flags s ask m = m
    simp [collected, ht]

/-- C10, at one input and one output with `-type` and `-input`: the input is
prompted and the output is not. -/
theorem collection_gated_by_flags_witness :
    NonNil smallManifest.Inputs ∧ NonNil smallManifest.Outputs ∧
    ∃ run, main ⟨true, false, true⟩ Schedule.inOrder (fun _ => some "bool") smallManifest =
        some run ∧
      inputPrompt "token" ∈ run.prompts ∧ outputPrompt "result" ∉ run.prompts := by
  have hi : NonNil smallManifest.Inputs := by decide
  have ho : NonNil smallManifest.Outputs := by decide
  obtain ⟨run, hrun, hin, hout, _, _⟩ :=
    collection_gated_by_flags ⟨true, false, true⟩ Schedule.inOrder (fun _ => some "bool")
      smallManifest valid_inOrder hi ho
  refine ⟨hi, ho, run, hrun, (hin "token").mpr ⟨by decide, rfl, rfl⟩, fun h => ?_⟩
  have h' := ((hout "result").mp h).2.2
  exact absurd h' (by decide)

/-! ## The tables of the tests and of the examples -/

/-- Two rows of which the first is less than the second come out in that order,
whichever way round they went in. -/
theorem sortSlice_pair (a b : List String) (h : less a b) :
    sortSlice [a, b] = [a, b] ∧ sortSlice [b, a] = [a, b] := by
  have hn : ¬ less b a := fun hba => absurd hba (lt_asymm h)
  constructor
  · simp [sortSlice, List.insertionSort, List.orderedInsert, hn]
  · simp [sortSlice, List.insertionSort, List.orderedInsert, h]

theorem less_github_token_repo (x y : List String) :
    less ("`github_token`" :: x) ("`repo`" :: y) := by
  rw [less_iff_toList]
  show "`github_token`".toList < "`repo`".toList
  decide

theorem less_note_result (x y : List String) : less ("`note`" :: x) ("`result`" :: y) := by
  rw [less_iff_toList]
  show "`note`".toList < "`result`".toList
  decide

/-- C11, at the four tables of the tests: the first cell of every row is the name
between backticks, `github_token` and `repo`, `note` and `result`, where the
expected tables of the tests have the bare names; the Type, Required and Default
cells are between backticks, as the tests expect. -/
theorem writeTable_test_tables :
    writeTableInputs id id (newMarkdownTableWriter []) testInputs =
      some (rendered (newMarkdownTableWriter []) ["Name", "Description", "Required", "Default"]
        [["`github_token`", "A GitHub token.", "`true`", "`N/A`"],
          ["`repo`", "The owner and repository name. e.g.) Codertocat/Hello-World.", "`false`",
            "`$\x7b\x7b github.repository \x7d\x7d`"]]) ∧
    writeTableInputs id id (newMarkdownTableWriter []) testInputsTyped =
      some (rendered (newMarkdownTableWriter [])
        ["Name", "Description", "Type", "Required", "Default"]
        [["`github_token`", "A GitHub token.", "`string`", "`true`", "`N/A`"],
          ["`repo`", "The owner and repository name. e.g.) Codertocat/Hello-World.", "`string`",
            "`false`", "`$\x7b\x7b github.repository \x7d\x7d`"]]) ∧
    writeTableOutputs id id (newMarkdownTableWriter []) testOutputs =
      some (rendered (newMarkdownTableWriter []) ["Name", "Description"]
        [["`note`", "The note about the action."], ["`result`", "The result of the action."]]) ∧
    writeTableOutputs id id (newMarkdownTableWriter []) testOutputsTyped =
      some (rendered (newMarkdownTableWriter []) ["Name", "Description", "Type"]
        [["`note`", "The note about the action.", "`string`"],
          ["`result`", "The result of the action.", "`string`"]]) ∧
    "`github_token`" ≠ "github_token" ∧ "`repo`" ≠ "repo" ∧
    "`note`" ≠ "note" ∧ "`result`" ≠ "result" := by
  refine ⟨?_, ?_, ?_, ?_, by decide, by decide, by decide, by decide⟩
  · rw [writeTableInputs_eq _ _ _ _ (by decide) (List.Perm.refl _) (List.Perm.refl _)]
    have hd : rowsOf (inputRow (anyNoType Input.Type_ testInputs)) (id testInputs) =
        [["`github_token`", "A GitHub token.", "`true`", "`N/A`"],
          ["`repo`", "The owner and repository name. e.g.) Codertocat/Hello-World.", "`false`",
            "`$\x7b\x7b github.repository \x7d\x7d`"]] := by decide
    have hh : inputsHeader (anyNoType Input.Type_ testInputs) =
        ["Name", "Description", "Required", "Default"] := by decide
    rw [hd, hh, (sortSlice_pair _ _ (less_github_token_repo _ _)).1]
  · rw [writeTableInputs_eq _ _ _ _ (by decide) (List.Perm.refl _) (List.Perm.refl _)]
    have hd : rowsOf (inputRow (anyNoType Input.Type_ testInputsTyped)) (id testInputsTyped) =
        [["`github_token`", "A GitHub token.", "`string`", "`true`", "`N/A`"],
          ["`repo`", "The owner and repository name. e.g.) Codertocat/Hello-World.", "`string`",
            "`false`", "`$\x7b\x7b github.repository \x7d\x7d`"]] := by decide
    have hh : inputsHeader (anyNoType Input.Type_ testInputsTyped) =
        ["Name", "Description", "Type", "Required", "Default"] := by decide
    rw [hd, hh, (sortSlice_pair _ _ (less_github_token_repo _ _)).1]
  · rw [writeTableOutputs_eq _ _ _ _ (by decide) (List.Perm.refl _) (List.Perm.refl _)]
    have hd : rowsOf (outputRow (anyNoType Output.Type_ testOutputs)) (id testOutputs) =
        [["`result`", "The result of the action."], ["`note`", "The note about the action."]] := by
      decide
    have hh : outputsHeader (anyNoType Output.Type_ testOutputs) = ["Name", "Description"] := by
      decide
    rw [hd, hh, (sortSlice_pair _ _ (less_note_result _ _)).2]
  · rw [writeTableOutputs_eq _ _ _ _ (by decide) (List.Perm.refl _) (List.Perm.refl _)]
    have hd : rowsOf (outputRow (anyNoType Output.Type_ testOutputsTyped)) (id testOutputsTyped) =
        [["`result`", "The result of the action.", "`string`"],
          ["`note`", "The note about the action.", "`string`"]] := by decide
    have hh : outputsHeader (anyNoType Output.Type_ testOutputsTyped) =
        ["Name", "Description", "Type"] := by decide
    rw [hd, hh, (sortSlice_pair _ _ (less_note_result _ _)).2]

/-- C12: on the example inputs of the specification, which have no types,
`writeTableInputs` sets the header Name, Description, Required, Default and hands
over two rows, the row of `github_token` before the row of `repo`; on the example
outputs `writeTableOutputs` hands over two rows, `note` before `result`; in
whatever order the maps are visited. -/
theorem writeTable_example_tables (description : String) (w : markdownTableWriter)
    (ri₁ ri₂ : Range (Option Input)) (ro₁ ro₂ : Range (Option Output))
    (hi₁ : (ri₁ (exampleInputs description)).Perm (exampleInputs description))
    (hi₂ : (ri₂ (exampleInputs description)).Perm (exampleInputs description))
    (ho₁ : (ro₁ exampleOutputs).Perm exampleOutputs)
    (ho₂ : (ro₂ exampleOutputs).Perm exampleOutputs) :
    writeTableInputs ri₁ ri₂ w (exampleInputs description) =
      some (rendered w ["Name", "Description", "Required", "Default"]
        [["`github_token`", "A GitHub token.", "`true`", "`N/A`"],
          ["`repo`", description, "`false`", "`$\x7b\x7b github.repository \x7d\x7d`"]]) ∧
    writeTableOutputs ro₁ ro₂ w exampleOutputs =
      some (rendered w ["Name", "Description"]
        [["`note`", "The note about the action."],
          ["`result`", "The result of the action."]]) := by
  constructor
  · have hnil : NonNil (exampleInputs description) := by simp [NonNil, exampleInputs]
    have hu : UniqueKeys (exampleInputs description) := by simp [UniqueKeys, exampleInputs]
    have hnt : anyNoType Input.Type_ (exampleInputs description) = true := by
      simp [anyNoType, exampleInputs]
    have hd : rowsOf (inputRow true) (exampleInputs description) =
        [["`github_token`", "A GitHub token.", "`true`", "`N/A`"],
          ["`repo`", description, "`false`",
            "`$\x7b\x7b github.repository \x7d\x7d`"]] := rfl
    rw [writeTableInputs_eq _ _ _ _ hnil hi₁ hi₂,
      sorted_rowsOf_congr _ (cell0_inputRow _) (exampleInputs description) _ _ hu hi₂
        (List.Perm.refl _),
      hnt, hd, (sortSlice_pair _ _ (less_github_token_repo _ _)).1]
    rfl
  · have hnil : NonNil exampleOutputs := by decide
    have hu : UniqueKeys exampleOutputs := by decide
    have hnt : anyNoType Output.Type_ exampleOutputs = true := by decide
    have hd : rowsOf (outputRow true) exampleOutputs =
        [["`result`", "The result of the action."],
          ["`note`", "The note about the action."]] := rfl
    rw [writeTableOutputs_eq _ _ _ _ hnil ho₁ ho₂,
      sorted_rowsOf_congr _ (cell0_outputRow _) exampleOutputs _ _ hu ho₂
        (List.Perm.refl _),
      hnt, hd, (sortSlice_pair _ _ (less_note_result _ _)).2]
    rfl

/-- C12, with both maps visited backwards in the loop that builds the rows. -/
theorem writeTable_example_tables_witness :
    (List.reverse (exampleInputs "...")).Perm (exampleInputs "...") ∧
    (List.reverse exampleOutputs).Perm exampleOutputs ∧
    writeTableInputs id List.reverse (newMarkdownTableWriter []) (exampleInputs "...") =
      some (rendered (newMarkdownTableWriter []) ["Name", "Description", "Required", "Default"]
        [["`github_token`", "A GitHub token.", "`true`", "`N/A`"],
          ["`repo`", "...", "`false`", "`$\x7b\x7b github.repository \x7d\x7d`"]]) ∧
    writeTableOutputs id List.reverse (newMarkdownTableWriter []) exampleOutputs =
      some (rendered (newMarkdownTableWriter []) ["Name", "Description"]
        [["`note`", "The note about the action."],
          ["`result`", "The result of the action."]]) :=
  ⟨List.reverse_perm _, List.reverse_perm _,
    writeTable_example_tables "..." (newMarkdownTableWriter []) id List.reverse id List.reverse
      (List.Perm.refl _) (List.reverse_perm _) (List.Perm.refl _) (List.reverse_perm _)⟩

/-! ## Both `-input` and `-output` -/

/-- C13: with `-input` and `-output` both given, with or without `-type`, a run on
a manifest whose inputs have no nil entry asks no prompt, leaves the manifest as
loaded and writes one table, the table of inputs: no line break and nothing of the
outputs, which are not even visited. -/
theorem main_input_and_output (hasTypes : Bool) (s : Schedule) (ask : Ask) (m : Manifest)
    (hi : NonNil m.Inputs) (h₁ : (s.inputsNoTypes m.Inputs).Perm m.Inputs)
    (h₂ : (s.inputsData m.Inputs).Perm m.Inputs) :
    ∃ header rows,
      writeTableInputs s.inputsNoTypes s.inputsData (newMarkdownTableWriter []) m.Inputs =
        some (rendered (newMarkdownTableWriter []) header rows) ∧
      main ⟨true, true, hasTypes⟩ s ask m =
        some
          { manifest := m
            prompts := []
            stdout :=
              [Written.table
                ((newMarkdownTableWriter []).tw ++
                  [TableCall.SetHeader header, TableCall.AppendBulk rows])] } := by
  have he := writeTableInputs_eq s.inputsNoTypes s.inputsData (newMarkdownTableWriter [])
    m.Inputs hi h₁ h₂
  refine ⟨_, _, he, ?_⟩
  unfold main
  cases hasTypes <;> simp only [Bool.and_false, Bool.not_true, Bool.false_and,
    Bool.false_eq_true, if_false, if_true, he] <;> rfl

/-- C13, at an input and a nil output, with `-type`: the run does not panic, asks
nothing and writes the table of the input alone. -/
theorem main_input_and_output_witness :
    NonNil nilOutputManifest.Inputs ∧
    main ⟨true, true, true⟩ Schedule.inOrder (fun _ => some "bool") nilOutputManifest =
      some
        { manifest := nilOutputManifest
          prompts := []
          stdout :=
            [Written.table
              [TableCall.SetBorders true false true false, TableCall.SetCenterSeparator "|",
                TableCall.SetColWidth 256,
                TableCall.SetHeader ["Name", "Description", "Required", "Default"],
                TableCall.AppendBulk [["`token`", "A token.", "`true`", "`N/A`"]]]] } := by
  have hi : NonNil nilOutputManifest.Inputs := by decide
  obtain ⟨header, rows, he, hmain⟩ :=
    main_input_and_output true Schedule.inOrder (fun _ => some "bool") nilOutputManifest hi
      (List.Perm.refl _) (List.Perm.refl _)
  have he' : writeTableInputs Schedule.inOrder.inputsNoTypes Schedule.inOrder.inputsData
      (newMarkdownTableWriter []) nilOutputManifest.Inputs =
      some (rendered (newMarkdownTableWriter []) ["Name", "Description", "Required", "Default"]
        [["`token`", "A token.", "`true`", "`N/A`"]]) := by decide
  rw [he'] at he
  have hw := Option.some.inj he
  have htw := congrArg markdownTableWriter.tw hw
  simp only [rendered, markdownTableWriter.call, List.append_assoc, List.append_cancel_left_eq,
    List.cons_append, List.nil_append, List.cons.injEq, TableCall.SetHeader.injEq,
    TableCall.AppendBulk.injEq, and_true] at htw
  obtain ⟨hh, hr⟩ := htw
  subst hh hr
  exact ⟨hi, hmain⟩

/-! ## One row per entry -/

theorem length_rowsOf {α : Type} (row : String → α → List String)
    (l : List (String × Option α)) (h : NonNil l) : (rowsOf row l).length = l.length := by
  induction l with
  | nil => rfl
  | cons p rest ih =>
    obtain ⟨name, v⟩ := p
    rw [nonNil_cons] at h
    cases v with
    | none => exact absurd rfl h.1
    | some v =>
      have hc : rowsOf row ((name, some v) :: rest) = row name v :: rowsOf row rest := by
        simp [rowsOf]
      rw [hc, List.length_cons, List.length_cons, ih h.2]

theorem cell0_rowsOf {α : Type} (row : String → α → List String)
    (hrow : ∀ name v, cell0 (row name v) = backtickString name)
    (l : List (String × Option α)) (h : NonNil l) :
    (rowsOf row l).map cell0 = l.map fun p => backtickString p.1 := by
  induction l with
  | nil => rfl
  | cons p rest ih =>
    obtain ⟨name, v⟩ := p
    rw [nonNil_cons] at h
    cases v with
    | none => exact absurd rfl h.1
    | some v =>
      have hc : rowsOf row ((name, some v) :: rest) = row name v :: rowsOf row rest := by
        simp [rowsOf]
      rw [hc, List.map_cons, List.map_cons, ih h.2, hrow]

theorem length_inputRow (noTypes : Bool) (name : String) (input : Input) :
    (inputRow noTypes name input).length = (inputsHeader noTypes).length := by
  cases noTypes <;> rfl

theorem length_outputRow (noTypes : Bool) (name : String) (output : Output) :
    (outputRow noTypes name output).length = (outputsHeader noTypes).length := by
  cases noTypes <;> rfl

/-- The rows handed to the table, against the rows the second loop built. -/
theorem sorted_rowsOf_count {α : Type} (row : String → α → List String)
    (hrow : ∀ name v, cell0 (row name v) = backtickString name)
    (m l : List (String × Option α)) (hnil : NonNil m) (h : l.Perm m) :
    (sortSlice (rowsOf row l)).Perm (rowsOf row l) ∧
    (sortSlice (rowsOf row l)).length = m.length ∧
    ((sortSlice (rowsOf row l)).map cell0).Perm (m.map fun p => backtickString p.1) := by
  have hl : NonNil l := (nonNil_perm h).mpr hnil
  refine ⟨sortSlice_perm _, ?_, ?_⟩
  · rw [length_sortSlice, length_rowsOf row l hl, h.length_eq]
  · refine ((sortSlice_perm _).map cell0).trans ?_
    rw [cell0_rowsOf row hrow l hl]
    exact h.map _

/-- C14: for inputs and for outputs without nil entries, the rows handed to the
table are a permutation of the rows the second loop built, one per entry: there
are as many rows as entries, their first cells are, counted with repeats, the
keys between backticks, and every row has as many cells as the header set. -/
theorem writeTable_one_row_per_entry (ri₁ ri₂ : Range (Option Input))
    (ro₁ ro₂ : Range (Option Output)) (w : markdownTableWriter) (inputs : Inputs)
    (outputs : Outputs)
    (hi : NonNil inputs) (hi₁ : (ri₁ inputs).Perm inputs) (hi₂ : (ri₂ inputs).Perm inputs)
    (ho : NonNil outputs) (ho₁ : (ro₁ outputs).Perm outputs)
    (ho₂ : (ro₂ outputs).Perm outputs) :
    (∃ noTypes data header rows,
      inputsNoTypes (ri₁ inputs) = some noTypes ∧
      inputsData noTypes (ri₂ inputs) = some data ∧
      writeTableInputs ri₁ ri₂ w inputs = some (rendered w header rows) ∧
      rows.Perm data ∧
      rows.length = inputs.length ∧
      (rows.map cell0).Perm (inputs.map fun p => backtickString p.1) ∧
      ∀ row ∈ rows, row.length = header.length) ∧
    (∃ noTypes data header rows,
      outputsNoTypes (ro₁ outputs) = some noTypes ∧
      outputsData noTypes (ro₂ outputs) = some data ∧
      writeTableOutputs ro₁ ro₂ w outputs = some (rendered w header rows) ∧
      rows.Perm data ∧
      rows.length = outputs.length ∧
      (rows.map cell0).Perm (outputs.map fun p => backtickString p.1) ∧
      ∀ row ∈ rows, row.length = header.length) := by
  constructor
  · obtain ⟨hp, hlen, hcells⟩ :=
      sorted_rowsOf_count (inputRow (anyNoType Input.Type_ inputs)) (cell0_inputRow _)
        inputs (ri₂ inputs) hi hi₂
    refine ⟨anyNoType Input.Type_ inputs, _, _, _, ?_, ?_,
      writeTableInputs_eq ri₁ ri₂ w inputs hi hi₁ hi₂, hp, hlen, hcells, ?_⟩
    · rw [inputsNoTypes_eq_loop, noTypesLoop_of_nonNil _ _ ((nonNil_perm hi₁).mpr hi),
        anyNoType_perm _ hi₁]
    · rw [inputsData_eq_loop, dataLoop_of_nonNil _ _ ((nonNil_perm hi₂).mpr hi)]
    · intro row hrow
      obtain ⟨name, input, -, rfl⟩ := (mem_sorted_rowsOf _ inputs _ hi₂ row).mp hrow
      exact length_inputRow _ _ _
  · obtain ⟨hp, hlen, hcells⟩ :=
      sorted_rowsOf_count (outputRow (anyNoType Output.Type_ outputs)) (cell0_outputRow _)
        outputs (ro₂ outputs) ho ho₂
    refine ⟨anyNoType Output.Type_ outputs, _, _, _, ?_, ?_,
      writeTableOutputs_eq ro₁ ro₂ w outputs ho ho₁ ho₂, hp, hlen, hcells, ?_⟩
    · rw [outputsNoTypes_eq_loop, noTypesLoop_of_nonNil _ _ ((nonNil_perm ho₁).mpr ho),
        anyNoType_perm _ ho₁]
    · rw [outputsData_eq_loop, dataLoop_of_nonNil _ _ ((nonNil_perm ho₂).mpr ho)]
    · intro row hrow
      obtain ⟨name, output, -, rfl⟩ := (mem_sorted_rowsOf _ outputs _ ho₂ row).mp hrow
      exact length_outputRow _ _ _

/-- C14, at the typed inputs and the mixed outputs: two rows each. -/
theorem writeTable_one_row_per_entry_witness :
    NonNil testInputsTyped ∧ NonNil mixedOutputs ∧
    (∃ header rows,
      writeTableInputs List.reverse id (newMarkdownTableWriter []) testInputsTyped =
        some (rendered (newMarkdownTableWriter []) header rows) ∧
      rows.length = 2 ∧ ∀ row ∈ rows, row.length = header.length) ∧
    (∃ header rows,
      writeTableOutputs List.reverse id (newMarkdownTableWriter []) mixedOutputs =
        some (rendered (newMarkdownTableWriter []) header rows) ∧
      rows.length = 2 ∧ ∀ row ∈ rows, row.length = header.length) := by
  have hi : NonNil testInputsTyped := by decide
  have ho : NonNil mixedOutputs := by decide
  obtain ⟨⟨_, _, hdri, rowsi, _, _, hei, _, hleni, _, hcelli⟩,
      ⟨_, _, hdro, rowso, _, _, heo, _, hleno, _, hcello⟩⟩ :=
    writeTable_one_row_per_entry List.reverse id List.reverse id (newMarkdownTableWriter [])
      testInputsTyped mixedOutputs hi (List.reverse_perm _) (List.Perm.refl _) ho
      (List.reverse_perm _) (List.Perm.refl _)
  exact ⟨hi, ho, ⟨hdri, rowsi, hei, hleni, hcelli⟩, ⟨hdro, rowso, heo, hleno, hcello⟩⟩

/-! ## The Description cell -/

/-- C15: for every entry of a set of inputs or of outputs, the second cell of its
row, the cell under the header Description, is the description of the entry as
it is, empty or not, with no backticks added, with and without the Type
column. -/
theorem description_cells (ri₁ ri₂ : Range (Option Input)) (ro₁ ro₂ : Range (Option Output))
    (w : markdownTableWriter) (inputs : Inputs) (outputs : Outputs)
    (hi : NonNil inputs) (hi₁ : (ri₁ inputs).Perm inputs) (hi₂ : (ri₂ inputs).Perm inputs)
    (ho : NonNil outputs) (ho₁ : (ro₁ outputs).Perm outputs)
    (ho₂ : (ro₂ outputs).Perm outputs) :
    (∃ header rows, writeTableInputs ri₁ ri₂ w inputs = some (rendered w header rows) ∧
      (∀ name input, (name, some input) ∈ inputs →
        ∃ row ∈ rows, cell0 row = backtickString name ∧
          row[1]? = some input.Description ∧
          column header "Description" row = some input.Description) ∧
      (∀ row ∈ rows, ∃ name input, (name, some input) ∈ inputs ∧
          cell0 row = backtickString name ∧
          row[1]? = some input.Description ∧
          column header "Description" row = some input.Description)) ∧
    (∃ header rows, writeTableOutputs ro₁ ro₂ w outputs = some (rendered w header rows) ∧
      (∀ name output, (name, some output) ∈ outputs →
        ∃ row ∈ rows, cell0 row = backtickString name ∧
          row[1]? = some output.Description ∧
          column header "Description" row = some output.Description) ∧
      (∀ row ∈ rows, ∃ name output, (name, some output) ∈ outputs ∧
          cell0 row = backtickString name ∧
          row[1]? = some output.Description ∧
          column header "Description" row = some output.Description)) := by
  obtain ⟨nti, rowsi, -, hei, hrowsi⟩ := writeTableInputs_rows ri₁ ri₂ w inputs hi hi₁ hi₂
  obtain ⟨nto, rowso, -, heo, hrowso⟩ := writeTableOutputs_rows ro₁ ro₂ w outputs ho ho₁ ho₂
  have keyi : ∀ name input,
      cell0 (inputRow nti name input) = backtickString name ∧
      (inputRow nti name input)[1]? = some input.Description ∧
      column (inputsHeader nti) "Description" (inputRow nti name input) =
        some input.Description := by
    intro name input
    refine ⟨cell0_inputRow _ _ _, ?_, ?_⟩
    · cases nti <;> rfl
    · cases nti <;> simp [inputRow, inputsHeader, column, List.indexOf_cons]
  have keyo : ∀ name output,
      cell0 (outputRow nto name output) = backtickString name ∧
      (outputRow nto name output)[1]? = some output.Description ∧
      column (outputsHeader nto) "Description" (outputRow nto name output) =
        some output.Description := by
    intro name output
    refine ⟨cell0_outputRow _ _ _, ?_, ?_⟩
    · cases nto <;> rfl
    · cases nto <;> simp [outputRow, outputsHeader, column, List.indexOf_cons]
  refine ⟨⟨_, rowsi, hei, ?_, ?_⟩, ⟨_, rowso, heo, ?_, ?_⟩⟩
  · intro name input hmem
    exact ⟨_, (hrowsi _).mpr ⟨name, input, hmem, rfl⟩, keyi name input⟩
  · intro row hrow
    obtain ⟨name, input, hmem, rfl⟩ := (hrowsi row).mp hrow
    exact ⟨name, input, hmem, keyi name input⟩
  · intro name output hmem
    exact ⟨_, (hrowso _).mpr ⟨name, output, hmem, rfl⟩, keyo name output⟩
  · intro row hrow
    obtain ⟨name, output, hmem, rfl⟩ := (hrowso row).mp hrow
    exact ⟨name, output, hmem, keyo name output⟩

/-- C15, at an input with an empty description and at the typed outputs of the
test: the Description cell of the input is empty, that of `note` is its text. -/
theorem description_cells_witness :
    NonNil bareInputs ∧ NonNil testOutputsTyped ∧
    (∃ header rows,
      writeTableInputs id id (newMarkdownTableWriter []) bareInputs =
        some (rendered (newMarkdownTableWriter []) header rows) ∧
      ∃ row ∈ rows, cell0 row = backtickString "token" ∧ row[1]? = some "") ∧
    (∃ header rows,
      writeTableOutputs id List.reverse (newMarkdownTableWriter []) testOutputsTyped =
        some (rendered (newMarkdownTableWriter []) header rows) ∧
      ∃ row ∈ rows, cell0 row = backtickString "note" ∧
        column header "Description" row = some "The note about the action.") := by
  have hi : NonNil bareInputs := by decide
  have ho : NonNil testOutputsTyped := by decide
  obtain ⟨⟨hdri, rowsi, hei, henti, _⟩, ⟨hdro, rowso, heo, hento, _⟩⟩ :=
    description_cells id id id List.reverse (newMarkdownTableWriter []) bareInputs
      testOutputsTyped hi (List.Perm.refl _) (List.Perm.refl _) ho (List.Perm.refl _)
      (List.reverse_perm _)
  obtain ⟨rowi, hrowi, hi0, hi1, _⟩ := henti "token" (Input.mk "" "" false "") (by decide)
  obtain ⟨rowo, hrowo, ho0, _, hoc⟩ :=
    hento "note" (Output.mk "The note about the action." valueTypeString) (by decide)
  exact ⟨hi, ho, ⟨hdri, rowsi, hei, rowi, hrowi, hi0, hi1⟩,
    ⟨hdro, rowso, heo, rowo, hrowo, ho0, hoc⟩⟩

end DescribeAction
